import Mathlib

/-
Verification development for the fpkgi-server repository.

The Rust sources are shallowly embedded below:
  * `src/server.rs`    : range parsing, file/directory serving, request routing;
  * `src/json_builder.rs` : the catalog builder and the external JSON merge;
  * `src/sfo_processor.rs` : the SFO table decoder;
  * `src/ps4_package.rs`  : file lookup (`locate_file` / `get_file`);
  * `src/utils.rs`     : primitive byte reads and NUL-terminated string extraction.

File contents are modelled as `List Nat` (byte values), strings handled by the
Rust code as `List Char` or `String`.  Machine integers are `Nat` with explicit
`% 2^64` / `% 2^32` where wrap-around matters (the release build wraps).
Filesystem access is abstracted by an explicit `FSModel` record of query
functions; each field corresponds to one syscall family used by the code.
Bytes decoded to text are treated as ASCII (the lossy-UTF-8 conversions of the
Rust code agree with this on ASCII inputs, which is all the theorems use).
-/

namespace Fpkgi

/-! ## Character and byte helpers -/

/-- Value of a hexadecimal digit character, `none` for non-hex characters. -/
def hexVal (c : Char) : Option Nat :=
  if '0' ≤ c ∧ c ≤ '9' then some (c.toNat - 48)
  else if 'a' ≤ c ∧ c ≤ 'f' then some (c.toNat - 87)
  else if 'A' ≤ c ∧ c ≤ 'F' then some (c.toNat - 55)
  else none

/-- `percent_encoding::percent_decode_str`: decode `%XX` escapes once, leaving
invalid escape sequences untouched (ASCII fidelity). -/
def percentDecode : List Char → List Char
  | [] => []
  | '%' :: h :: t :: rest =>
    match hexVal h, hexVal t with
    | some a, some b => Char.ofNat (16 * a + b) :: percentDecode rest
    | _, _ => '%' :: percentDecode (h :: t :: rest)
  | c :: rest => c :: percentDecode rest

/-! ## `server.rs`: Range header parsing (`parse_range`) -/

/-- Rust `str::trim` on a character list: drop whitespace at both ends. -/
def trimChars (l : List Char) : List Char :=
  ((l.dropWhile Char.isWhitespace).reverse.dropWhile Char.isWhitespace).reverse

/-- Rust `str::parse::<u64>`: optional leading `+`, then one or more decimal
digits, value must fit in a `u64`. -/
def parseU64Chars (l : List Char) : Option Nat :=
  let t := match l with
    | '+' :: rest => rest
    | _ => l
  if t ≠ [] ∧ t.all Char.isDigit then
    let v := t.foldl (fun a ch => a * 10 + (ch.toNat - 48)) 0
    if v < 2 ^ 64 then some v else none
  else none

/-- `parse_range` from `server.rs` (lines 164-185): strip `bytes=`, split on
the first `-` (Rust `splitn(2, '-')`), parse both bounds (an empty upper bound
means `file_size - 1`, computed with u64 wrap-around as in the release build),
and reject `start > end || end >= file_size`. -/
def parseRange (range : List Char) (file_size : Nat) : Option (Nat × Nat) :=
  if ("bytes=".toList).isPrefixOf range then
    match (range.drop 6).dropWhile (· ≠ '-') with
    | [] => none
    | _ :: after =>
      match parseU64Chars (trimChars ((range.drop 6).takeWhile (· ≠ '-'))) with
      | none => none
      | some start =>
        match (if trimChars after = [] then some ((file_size + (2 ^ 64 - 1)) % 2 ^ 64)
               else parseU64Chars (trimChars after)) with
        | none => none
        | some e => if start > e ∨ e ≥ file_size then none else some (start, e)
  else none

/-! ## `server.rs`: file streaming (`serve_file`)

`ReaderStream::new(file)` yields the bytes from the current seek position to
end of file as a sequence of non-empty chunks; the chunk capacity is a fixed
constant of the I/O layer (4096 in `tokio_util`), modelled here as an arbitrary
positive size `c + 1` so every theorem holds for every chunk size.
`StreamExt::take(n)` keeps the first `n` chunks of that stream. -/

/-- Chunk decomposition of a byte list into chunks of size `c + 1`; `fuel`
bounds the recursion and is adequate whenever `fuel ≥ l.length`. -/
def chunkAux (c : Nat) : Nat → List Nat → List (List Nat)
  | _, [] => []
  | 0, _ :: _ => []
  | fuel + 1, x :: xs => ((x :: xs).take (c + 1)) :: chunkAux c fuel ((x :: xs).drop (c + 1))

/-- The chunk stream produced by `ReaderStream` over the byte list `l`. -/
def chunkStream (c : Nat) (l : List Nat) : List (List Nat) :=
  chunkAux c l.length l

/-- An HTTP response as constructed by `server.rs`: status code, the headers
set by the builder, and the body as the sequence of chunks handed to hyper. -/
structure HttpResponse where
  status : Nat
  headers : List (String × String)
  bodyChunks : List (List Nat)
deriving DecidableEq, Repr

/-- The bytes of an HTTP/1.1 message body framed by a `Content-Length` of `n`:
the wire protocol (RFC 7230 §3.3.3, enforced by hyper's length-delimited
encoder) transmits exactly the first `n` bytes produced by the body stream. -/
def transmittedBody (r : HttpResponse) (n : Nat) : List Nat :=
  r.bodyChunks.flatten.take n

/-- The `200 OK` whole-file response of `serve_file` (lines 146-155). -/
def fullFileResponse (c : Nat) (content : List Nat) : HttpResponse :=
  { status := 200
    headers := [("Content-Type", "application/octet-stream"),
                ("Content-Length", toString content.length),
                ("Accept-Ranges", "bytes")]
    bodyChunks := chunkStream c content }

/-- `serve_file` (lines 114-162).  `openOk` models `File::open` succeeding,
`metaOk` models `fs::metadata` succeeding, `content` the file's bytes.  On
either failure the function returns `none` (Rust `None`), which the caller
turns into the not-found response.  A present, valid Range header that parses
in bounds produces the `206` response whose body is the chunk stream of the
suffix starting at `start`, limited to `content_length` chunks
(`reader_stream.take(content_length)`); otherwise the whole file is served. -/
def serveFile (c : Nat) (content : List Nat) (openOk metaOk : Bool)
    (rangeHeader : Option (List Char)) : Option HttpResponse :=
  if openOk then
    if metaOk then
      let file_size := content.length
      match rangeHeader with
      | some rh =>
        match parseRange rh file_size with
        | some (s, e) =>
          let content_length := e - s + 1
          some { status := 206
                 headers := [("Content-Type", "application/octet-stream"),
                             ("Content-Length", toString content_length),
                             ("Content-Range",
                              "bytes " ++ toString s ++ "-" ++ toString e ++ "/" ++
                                toString file_size),
                             ("Accept-Ranges", "bytes")]
                 bodyChunks := (chunkStream c (content.drop s)).take content_length }
        | none => some (fullFileResponse c content)
      | none => some (fullFileResponse c content)
    else none
  else none

/-! ### Chunk-stream lemmas -/

theorem chunkAux_flatten_take (c : Nat) :
    ∀ (n fuel : Nat) (l : List Nat), l.length ≤ fuel →
      ((chunkAux c fuel l).take n).flatten = l.take (n * (c + 1)) := by
  intro n
  induction n with
  | zero => intro fuel l _; simp
  | succ n ih =>
    intro fuel l hfuel
    cases l with
    | nil => cases fuel <;> simp [chunkAux]
    | cons x xs =>
      cases fuel with
      | zero => simp at hfuel
      | succ fuel =>
        have hlen : ((x :: xs).drop (c + 1)).length ≤ fuel := by
          simp only [List.length_drop, List.length_cons]
          simp only [List.length_cons] at hfuel
          omega
        have h1 : chunkAux c (fuel + 1) (x :: xs) =
            ((x :: xs).take (c + 1)) :: chunkAux c fuel ((x :: xs).drop (c + 1)) := rfl
        rw [h1]
        set A := (x :: xs).take (c + 1) with hA
        rw [List.take_succ_cons, List.flatten_cons, ih fuel ((x :: xs).drop (c + 1)) hlen]
        conv_rhs => rw [show (n + 1) * (c + 1) = (c + 1) + n * (c + 1) from by ring,
          List.take_add]

theorem chunkAux_flatten (c : Nat) :
    ∀ (fuel : Nat) (l : List Nat), l.length ≤ fuel →
      (chunkAux c fuel l).flatten = l := by
  intro fuel
  induction fuel with
  | zero =>
    intro l hl
    cases l with
    | nil => simp [chunkAux]
    | cons x xs => simp at hl
  | succ fuel ih =>
    intro l hl
    cases l with
    | nil => simp [chunkAux]
    | cons x xs =>
      have hlen : ((x :: xs).drop (c + 1)).length ≤ fuel := by
        simp only [List.length_drop, List.length_cons]
        simp only [List.length_cons] at hl
        omega
      have h1 : chunkAux c (fuel + 1) (x :: xs) =
          ((x :: xs).take (c + 1)) :: chunkAux c fuel ((x :: xs).drop (c + 1)) := rfl
      rw [h1, List.flatten_cons, ih _ hlen, List.take_append_drop]

theorem chunkStream_flatten (c : Nat) (l : List Nat) :
    (chunkStream c l).flatten = l :=
  chunkAux_flatten c l.length l le_rfl

theorem chunkStream_take_flatten_take (c n : Nat) (l : List Nat) :
    (((chunkStream c l).take n).flatten).take n = l.take n := by
  rw [chunkStream, chunkAux_flatten_take c n l.length l le_rfl, List.take_take]
  congr 1
  have : n ≤ n * (c + 1) := Nat.le_mul_of_pos_right n (Nat.succ_pos c)
  omega

theorem isPrefixOf_append_left (l r : List Char) : l.isPrefixOf (l ++ r) = true := by
  rw [List.isPrefixOf_iff_prefix]
  exact List.prefix_append l r

theorem takeWhile_append_all {α : Type} (p : α → Bool) (l l' : List α)
    (h : ∀ a ∈ l, p a = true) :
    (l ++ l').takeWhile p = l ++ l'.takeWhile p := by
  induction l with
  | nil => rfl
  | cons a as ih =>
    simp only [List.cons_append, List.takeWhile_cons, h a (List.mem_cons_self a as),
      if_true]
    rw [ih fun x hx => h x (List.mem_cons_of_mem a hx)]

theorem dropWhile_append_all {α : Type} (p : α → Bool) (l l' : List α)
    (h : ∀ a ∈ l, p a = true) :
    (l ++ l').dropWhile p = l'.dropWhile p := by
  induction l with
  | nil => rfl
  | cons a as ih =>
    simp only [List.cons_append, List.dropWhile_cons, h a (List.mem_cons_self a as),
      if_true]
    exact ih fun x hx => h x (List.mem_cons_of_mem a hx)

/-- Inversion for `parseRange`: a successful parse satisfies the bounds the
code checks before returning `Some`. -/
theorem parseRange_sound {rh : List Char} {fs a b : Nat}
    (h : parseRange rh fs = some (a, b)) : a ≤ b ∧ b < fs := by
  unfold parseRange at h
  split at h
  · split at h
    · exact absurd h (by simp)
    · split at h
      · exact absurd h (by simp)
      · split at h
        · exact absurd h (by simp)
        · rename_i e heq
          split at h
          · exact absurd h (by simp)
          · rename_i hcond
            push_neg at hcond
            simp only [Option.some.injEq, Prod.mk.injEq] at h
            obtain ⟨rfl, rfl⟩ := h
            omega
  · exact absurd h (by simp)

/-- An empty upper bound in the Range header resolves to `file_size - 1`. -/
theorem parseRange_empty_upper (before : List Char) (fs a : Nat)
    (h1 : 0 < fs) (h2 : fs < 2 ^ 64) (h3 : ∀ ch ∈ before, ch ≠ '-')
    (h4 : parseU64Chars (trimChars before) = some a) (h5 : a ≤ fs - 1) :
    parseRange ("bytes=".toList ++ (before ++ ['-'])) fs = some (a, fs - 1) := by
  have hb : ∀ x ∈ before, (decide (x ≠ '-')) = true := fun x hx => by
    simp [h3 x hx]
  unfold parseRange
  rw [if_pos (isPrefixOf_append_left _ _)]
  have hdrop : ("bytes=".toList ++ (before ++ ['-'])).drop 6 = before ++ ['-'] := by
    have h6 : ("bytes=".toList).length = 6 := rfl
    rw [← h6, List.drop_left]
  rw [hdrop, takeWhile_append_all _ _ _ hb, dropWhile_append_all _ _ _ hb]
  have htw : (['-'] : List Char).takeWhile (fun c => decide (c ≠ '-')) = [] := rfl
  have hdw : (['-'] : List Char).dropWhile (fun c => decide (c ≠ '-')) = ['-'] := rfl
  rw [htw, hdw, List.append_nil, h4]
  have hwrap : (fs + (2 ^ 64 - 1)) % 2 ^ 64 = fs - 1 := by
    have hp : (2 : Nat) ^ 64 = 18446744073709551616 := by norm_num
    rw [hp] at h2 ⊢
    omega
  show (if a > (fs + (2 ^ 64 - 1)) % 2 ^ 64 ∨ (fs + (2 ^ 64 - 1)) % 2 ^ 64 ≥ fs then
      (none : Option (Nat × Nat))
    else some (a, (fs + (2 ^ 64 - 1)) % 2 ^ 64)) = some (a, fs - 1)
  rw [hwrap]
  have hneg : ¬(a > fs - 1 ∨ fs - 1 ≥ fs) := by omega
  rw [if_neg hneg]

/-! ## `server.rs`: HTML generation (`html` module) -/

/-- `html::directory_index` (lines 36-43): one `<li>` per mapping name, in the
iteration order of the directory map, between a fixed header and footer. -/
def directoryIndexHtml (dirs : List (String × String)) : String :=
  (dirs.foldl (fun acc p =>
      acc ++ ("<li><a href=\"/" ++ p.1 ++ "/\">" ++ p.1 ++ "</a></li>\n"))
    "<!DOCTYPE html>\n<html>\n<head><title>Directory Index</title></head>\n<body>\n<h1>Available Directories</h1>\n<ul>\n")
  ++ "</ul>\n</body>\n</html>"

/-- `html::directory_listing` (lines 45-57): one `<li>` per entry name, in the
order the entries were produced. -/
def directoryListingHtml (full_path : String) (entries : List String) : String :=
  (entries.foldl (fun acc name =>
      acc ++ ("<li><a href=\"" ++
        (if full_path.toList.getLast? = some '/' then full_path ++ name
         else full_path ++ "/" ++ name) ++ "\">" ++ name ++ "</a></li>\n"))
    "<!DOCTYPE html>\n<html><body><h1>Directory Contents</h1><ul>\n")
  ++ "</ul></body></html>"

/-! ## `server.rs`: request routing (`handle_request`, `try_serve_path`) -/

/-- The filesystem as seen through the syscalls `server.rs` makes: existence
and kind queries, open/metadata success, file contents, and directory entries
in readdir order (`none` models a read error). -/
structure FSModel where
  pathExists : String → Bool
  isFile : String → Bool
  isDir : String → Bool
  openOk : String → Bool
  metaOk : String → Bool
  content : String → List Nat
  dirEntries : String → Option (List String)

/-- `PathBuf::join` for the cases arising here: an empty component keeps the
directory (the trailing separator Rust adds does not change any filesystem
query), an absolute component replaces the base, anything else is appended
verbatim after a `/` — in particular `..` segments are not rejected or
normalized. -/
def joinPath (dir sub : String) : String :=
  if sub = "" then dir
  else if sub.toList.head? = some '/' then sub
  else dir ++ "/" ++ sub

/-- `HashMap::get`, modelled as lookup in the map's entry sequence. -/
def assocLookup {κ β : Type} [DecidableEq κ] : List (κ × β) → κ → Option β
  | [], _ => none
  | (k', v) :: rest, k => if k' = k then some v else assocLookup rest k

/-- `build_ok_response` (lines 210-216): `200 OK`, `Content-Type` as given,
body delivered as a single chunk (`Full`). -/
def okHtmlResponse (body : String) : HttpResponse :=
  { status := 200
    headers := [("Content-Type", "text/html")]
    bodyChunks := [body.toList.map Char.toNat] }

/-- `build_not_found_response` (lines 218-224). -/
def notFoundResponse : HttpResponse :=
  { status := 404
    headers := [("Content-Type", "text/plain")]
    bodyChunks := [("404 - Not Found".toList.map Char.toNat)] }

/-- `try_serve_path` (lines 92-112): join the subpath onto the mapped
directory, then serve a file, a directory listing, or nothing. -/
def tryServePath (fs : FSModel) (c : Nat) (dir base sub : String)
    (rangeHeader : Option (List Char)) : Option HttpResponse :=
  if fs.pathExists (joinPath dir sub) then
    if fs.isFile (joinPath dir sub) then
      serveFile c (fs.content (joinPath dir sub)) (fs.openOk (joinPath dir sub))
        (fs.metaOk (joinPath dir sub)) rangeHeader
    else if fs.isDir (joinPath dir sub) then
      match fs.dirEntries (joinPath dir sub) with
      | some entries =>
        some (okHtmlResponse (directoryListingHtml
          (if sub = "" then "/" ++ base else "/" ++ base ++ "/" ++ sub) entries))
      | none => none
    else none
  else none

/-- `handle_request` (lines 64-90): serve the index for `/`, otherwise
percent-decode the path once, strip leading `/`, split at the first `/` into
(base, subpath), look the base up in the directory map, and fall through to
`404` when the lookup or `try_serve_path` fails. -/
def handleRequest (dirs : List (String × String)) (fs : FSModel) (c : Nat)
    (path : String) (rangeHeader : Option (List Char)) : HttpResponse :=
  if path = "/" ∨ path = "" then
    okHtmlResponse (directoryIndexHtml dirs)
  else
    match assocLookup dirs
        (String.mk (((percentDecode path.toList).dropWhile (· = '/')).takeWhile
          (· ≠ '/'))) with
    | some dir =>
      match tryServePath fs c dir
          (String.mk (((percentDecode path.toList).dropWhile (· = '/')).takeWhile
            (· ≠ '/')))
          (String.mk ((((percentDecode path.toList).dropWhile (· = '/')).dropWhile
            (· ≠ '/')).drop 1))
          rangeHeader with
      | some r => r
      | none => notFoundResponse
    | none => notFoundResponse

/-! ## Path-segment normalization (statement apparatus for C10)

These definitions are not part of the Rust code; they only give meaning to
"the resolved path lies outside the mapped directory" in the C10 theorem. -/

/-- Split a character list into `/`-separated segments. -/
def pathSegs : List Char → List (List Char)
  | [] => [[]]
  | c :: rest =>
    if c = '/' then [] :: pathSegs rest
    else
      match pathSegs rest with
      | s :: ss => (c :: s) :: ss
      | [] => [[c]]

/-- Resolve `..` and drop empty/`.` segments, left to right. -/
def normSegs (segs : List (List Char)) : List (List Char) :=
  segs.foldl (fun acc s =>
    if s = ['.', '.'] then acc.dropLast
    else if s = [] ∨ s = ['.'] then acc
    else acc ++ [s]) []

/-! ## `json_builder.rs`: JSON values and the external-override merge

`serde_json::Value` is embedded as `Json`; objects are association lists (the
entry sequence of the map).  `merge_json_values` (lines 71-86) deep-merges two
objects key by key — recursing on keys present in both, inserting keys present
only externally — and otherwise overwrites the base with the external value. -/

inductive Json where
  | null
  | bool (b : Bool)
  | num (n : Int)
  | str (s : String)
  | arr (xs : List Json)
  | obj (m : List (String × Json))

/-- `Map::get` on a JSON object. -/
def lookupJ : List (String × Json) → String → Option Json
  | [], _ => none
  | (k', v) :: rest, k => if k' = k then some v else lookupJ rest k

/-- `Map::get_mut` + assignment: replace the value at the first occurrence of
`k`, leaving the list unchanged when `k` is absent. -/
def setJ : List (String × Json) → String → Json → List (String × Json)
  | [], _, _ => []
  | (k', v') :: rest, k, v =>
    if k' = k then (k, v) :: rest else (k', v') :: setJ rest k v

mutual
/-- `merge_json_values`: two objects deep-merge, anything else is overwritten
by the external value. -/
def mergeJson : Json → Json → Json
  | .obj b, .obj e => .obj (mergeObjList b e)
  | _, e => e

/-- The `for (key, ext_value) in ext_map` loop of `merge_json_values`. -/
def mergeObjList (base : List (String × Json)) :
    List (String × Json) → List (String × Json)
  | [] => base
  | (k, v) :: rest =>
    match lookupJ base k with
    | some bv => mergeObjList (setJ base k (mergeJson bv v)) rest
    | none => mergeObjList (base ++ [(k, v)]) rest
end

/-- Keys of a JSON object are pairwise distinct (an invariant of every
`serde_json::Map`, which parsed JSON and `to_value` always satisfy). -/
def keysNodupB : List (String × Json) → Bool
  | [] => true
  | (k, _) :: rest => (lookupJ rest k).isNone && keysNodupB rest

mutual
/-- Well-formedness of a JSON value: every object in it has distinct keys. -/
def WFb : Json → Bool
  | .obj m => keysNodupB m && WFlist m
  | _ => true

def WFlist : List (String × Json) → Bool
  | [] => true
  | (_, v) :: rest => WFb v && WFlist rest
end

/-! ### Association-list lemmas for the merge -/

theorem mergeObjList_nil (b : List (String × Json)) : mergeObjList b [] = b := by
  simp [mergeObjList]

theorem mergeObjList_cons (b : List (String × Json)) (k : String) (v : Json)
    (rest : List (String × Json)) :
    mergeObjList b ((k, v) :: rest) =
      match lookupJ b k with
      | some bv => mergeObjList (setJ b k (mergeJson bv v)) rest
      | none => mergeObjList (b ++ [(k, v)]) rest := by
  simp [mergeObjList]

theorem mergeObjList_cons_some {b : List (String × Json)} {k : String} {bv : Json}
    (v : Json) (rest : List (String × Json)) (hl : lookupJ b k = some bv) :
    mergeObjList b ((k, v) :: rest) = mergeObjList (setJ b k (mergeJson bv v)) rest := by
  rw [mergeObjList_cons, hl]

theorem mergeObjList_cons_none {b : List (String × Json)} {k : String}
    (v : Json) (rest : List (String × Json)) (hl : lookupJ b k = none) :
    mergeObjList b ((k, v) :: rest) = mergeObjList (b ++ [(k, v)]) rest := by
  rw [mergeObjList_cons, hl]

theorem lookupJ_setJ_self {b : List (String × Json)} {k : String} {bv : Json}
    (h : lookupJ b k = some bv) (x : Json) : lookupJ (setJ b k x) k = some x := by
  induction b with
  | nil => simp [lookupJ] at h
  | cons kv rest ih =>
    obtain ⟨k2, v2⟩ := kv
    by_cases hk : k2 = k
    · subst hk
      simp [lookupJ, setJ]
    · simp only [lookupJ, setJ, if_neg hk] at h ⊢
      exact ih h

theorem setJ_self {l : List (String × Json)} {k : String} {x : Json}
    (h : lookupJ l k = some x) : setJ l k x = l := by
  induction l with
  | nil => rfl
  | cons kv rest ih =>
    obtain ⟨k2, v2⟩ := kv
    by_cases hk : k2 = k
    · subst hk
      simp [lookupJ] at h
      subst h
      simp [setJ]
    · simp only [lookupJ, if_neg hk] at h
      simp only [setJ, if_neg hk]
      rw [ih h]

theorem lookupJ_setJ_ne {b : List (String × Json)} {k2 k : String} (x : Json)
    (h : k2 ≠ k) : lookupJ (setJ b k2 x) k = lookupJ b k := by
  induction b with
  | nil => rfl
  | cons kv rest ih =>
    obtain ⟨k3, v3⟩ := kv
    by_cases hk : k3 = k2
    · subst hk
      simp [setJ, lookupJ, if_neg h]
    · by_cases hk2 : k3 = k
      · simp [setJ, if_neg hk, lookupJ, if_pos hk2]
      · simp [setJ, if_neg hk, lookupJ, if_neg hk2, ih]

theorem lookupJ_append_sing_ne {b : List (String × Json)} {k2 k : String}
    (v2 : Json) (h : k2 ≠ k) : lookupJ (b ++ [(k2, v2)]) k = lookupJ b k := by
  induction b with
  | nil => simp [lookupJ, if_neg h]
  | cons kv rest ih =>
    obtain ⟨k3, v3⟩ := kv
    by_cases hk : k3 = k
    · simp [lookupJ, if_pos hk]
    · simp only [List.cons_append, lookupJ, if_neg hk]
      exact ih

theorem lookupJ_append_sing_self {b : List (String × Json)} {k : String}
    (v : Json) (h : lookupJ b k = none) : lookupJ (b ++ [(k, v)]) k = some v := by
  induction b with
  | nil => simp [lookupJ]
  | cons kv rest ih =>
    obtain ⟨k2, v2⟩ := kv
    by_cases hk : k2 = k
    · simp [lookupJ, if_pos hk] at h
    · simp only [lookupJ, if_neg hk] at h
      simp only [List.cons_append, lookupJ, if_neg hk]
      exact ih h

theorem lookupJ_isNone_ne {m : List (String × Json)} {k : String}
    (h : (lookupJ m k).isNone = true) : ∀ kv ∈ m, kv.1 ≠ k := by
  induction m with
  | nil => intro kv hm; simp at hm
  | cons kv2 rest ih =>
    obtain ⟨k2, v2⟩ := kv2
    intro kv hm
    by_cases hk : k2 = k
    · simp [lookupJ, if_pos hk] at h
    · simp only [lookupJ, if_neg hk] at h
      rcases List.mem_cons.1 hm with h1 | h1
      · subst h1
        exact hk
      · exact ih h kv h1

theorem keysNodupB_lookup {m : List (String × Json)} {k : String} {v : Json}
    (hn : keysNodupB m = true) (hm : (k, v) ∈ m) : lookupJ m k = some v := by
  induction m with
  | nil => simp at hm
  | cons kv rest ih =>
    obtain ⟨k2, v2⟩ := kv
    simp only [keysNodupB, Bool.and_eq_true] at hn
    rcases List.mem_cons.1 hm with h1 | h1
    · injection h1 with e1 e2
      subst e1
      subst e2
      simp [lookupJ]
    · by_cases hk : k2 = k
      · subst hk
        exact absurd rfl (lookupJ_isNone_ne hn.1 _ h1)
      · simp only [lookupJ, if_neg hk]
        exact ih hn.2 h1

theorem WFlist_mem {m : List (String × Json)} (h : WFlist m = true) :
    ∀ kv ∈ m, WFb kv.2 = true := by
  induction m with
  | nil => intro kv hm; simp at hm
  | cons kv2 rest ih =>
    obtain ⟨k2, v2⟩ := kv2
    intro kv hm
    simp only [WFlist, Bool.and_eq_true] at h
    rcases List.mem_cons.1 hm with h1 | h1
    · subst h1
      exact h.1
    · exact ih h.2 kv h1

theorem lookupJ_mergeObjList_ne {e : List (String × Json)} :
    ∀ (b : List (String × Json)) (k : String), (∀ kv ∈ e, kv.1 ≠ k) →
      lookupJ (mergeObjList b e) k = lookupJ b k := by
  induction e with
  | nil =>
    intro b k _
    rw [mergeObjList_nil]
  | cons kv rest ih =>
    intro b k h
    obtain ⟨k2, v2⟩ := kv
    have hk2 : k2 ≠ k := h (k2, v2) (List.mem_cons_self _ _)
    have hrest : ∀ kv ∈ rest, kv.1 ≠ k := fun kv hkv => h kv (List.mem_cons_of_mem _ hkv)
    cases hl : lookupJ b k2 with
    | some bv =>
      rw [mergeObjList_cons_some _ _ hl, ih _ _ hrest, lookupJ_setJ_ne _ hk2]
    | none =>
      rw [mergeObjList_cons_none _ _ hl, ih _ _ hrest, lookupJ_append_sing_ne _ hk2]

/-! ### Self-merge and idempotence of the external-override merge -/

theorem mergeJson_obj_obj (b e : List (String × Json)) :
    mergeJson (.obj b) (.obj e) = .obj (mergeObjList b e) := by
  simp [mergeJson]

/-- All four merge facts, indexed by a size bound for the strong induction:
self-merge on values and entry lists, idempotence on values and entry lists. -/
theorem mergeLemmas :
    ∀ n : Nat,
      (∀ x : Json, sizeOf x ≤ n → WFb x = true → mergeJson x x = x) ∧
      (∀ base e : List (String × Json), sizeOf e ≤ n →
        (∀ kv ∈ e, lookupJ base kv.1 = some kv.2 ∧ WFb kv.2 = true) →
        mergeObjList base e = base) ∧
      (∀ b e : Json, sizeOf e ≤ n → WFb e = true →
        mergeJson (mergeJson b e) e = mergeJson b e) ∧
      (∀ b e : List (String × Json), sizeOf e ≤ n → keysNodupB e = true →
        WFlist e = true →
        mergeObjList (mergeObjList b e) e = mergeObjList b e) := by
  intro n
  induction n using Nat.strong_induction_on with
  | _ n ih =>
    have l2 : ∀ base e : List (String × Json), sizeOf e ≤ n →
        (∀ kv ∈ e, lookupJ base kv.1 = some kv.2 ∧ WFb kv.2 = true) →
        mergeObjList base e = base := by
      intro base e hsize hmem
      cases e with
      | nil => exact mergeObjList_nil base
      | cons kv rest =>
        obtain ⟨k, v⟩ := kv
        have h1 := hmem (k, v) (List.mem_cons_self _ _)
        have hsv : sizeOf v < sizeOf ((k, v) :: rest) := by
          simp only [List.cons.sizeOf_spec, Prod.mk.sizeOf_spec]
          omega
        have hsr : sizeOf rest < sizeOf ((k, v) :: rest) := by
          simp only [List.cons.sizeOf_spec, Prod.mk.sizeOf_spec]
          omega
        have hv : mergeJson v v = v :=
          (ih (sizeOf v) (lt_of_lt_of_le hsv hsize)).1 v le_rfl h1.2
        rw [mergeObjList_cons_some v rest h1.1, hv, setJ_self h1.1]
        exact (ih (sizeOf rest) (lt_of_lt_of_le hsr hsize)).2.1 base rest le_rfl
          fun kv hkv => hmem kv (List.mem_cons_of_mem _ hkv)
    have l1 : ∀ x : Json, sizeOf x ≤ n → WFb x = true → mergeJson x x = x := by
      intro x hsize hwf
      cases x with
      | null => rfl
      | bool b => rfl
      | num i => rfl
      | str s => rfl
      | arr xs => rfl
      | obj m =>
        have hm : sizeOf m < sizeOf (Json.obj m) := by
          simp only [Json.obj.sizeOf_spec]
          omega
        have hwf2 : keysNodupB m = true ∧ WFlist m = true := by
          simpa [WFb, Bool.and_eq_true] using hwf
        rw [mergeJson_obj_obj]
        rw [(ih (sizeOf m) (lt_of_lt_of_le hm hsize)).2.1 m m le_rfl
          fun kv hkv => by
            obtain ⟨k, v⟩ := kv
            exact ⟨keysNodupB_lookup hwf2.1 hkv, WFlist_mem hwf2.2 _ hkv⟩]
    have ml : ∀ b e : List (String × Json), sizeOf e ≤ n → keysNodupB e = true →
        WFlist e = true →
        mergeObjList (mergeObjList b e) e = mergeObjList b e := by
      intro b e hsize hnd hwl
      cases e with
      | nil => rw [mergeObjList_nil]
      | cons kv rest =>
        obtain ⟨k, v⟩ := kv
        simp only [keysNodupB, Bool.and_eq_true] at hnd
        simp only [WFlist, Bool.and_eq_true] at hwl
        have hkrest : ∀ kv ∈ rest, kv.1 ≠ k := lookupJ_isNone_ne hnd.1
        have hsv : sizeOf v < sizeOf ((k, v) :: rest) := by
          simp only [List.cons.sizeOf_spec, Prod.mk.sizeOf_spec]
          omega
        have hsr : sizeOf rest < sizeOf ((k, v) :: rest) := by
          simp only [List.cons.sizeOf_spec, Prod.mk.sizeOf_spec]
          omega
        cases hl : lookupJ b k with
        | some bv =>
          rw [mergeObjList_cons_some v rest hl]
          have hOut : lookupJ (mergeObjList (setJ b k (mergeJson bv v)) rest) k =
              some (mergeJson bv v) := by
            rw [lookupJ_mergeObjList_ne _ _ hkrest]
            exact lookupJ_setJ_self hl _
          rw [mergeObjList_cons_some v rest hOut]
          have hmv : mergeJson (mergeJson bv v) v = mergeJson bv v :=
            (ih (sizeOf v) (lt_of_lt_of_le hsv hsize)).2.2.1 bv v le_rfl hwl.1
          rw [hmv, setJ_self hOut]
          exact (ih (sizeOf rest) (lt_of_lt_of_le hsr hsize)).2.2.2 _ rest le_rfl
            hnd.2 hwl.2
        | none =>
          rw [mergeObjList_cons_none v rest hl]
          have hOut : lookupJ (mergeObjList (b ++ [(k, v)]) rest) k = some v := by
            rw [lookupJ_mergeObjList_ne _ _ hkrest]
            exact lookupJ_append_sing_self v hl
          rw [mergeObjList_cons_some v rest hOut]
          have hv : mergeJson v v = v :=
            (ih (sizeOf v) (lt_of_lt_of_le hsv hsize)).1 v le_rfl hwl.1
          rw [hv, setJ_self hOut]
          exact (ih (sizeOf rest) (lt_of_lt_of_le hsr hsize)).2.2.2 _ rest le_rfl
            hnd.2 hwl.2
    have m3 : ∀ b e : Json, sizeOf e ≤ n → WFb e = true →
        mergeJson (mergeJson b e) e = mergeJson b e := by
      intro b e hsize hwf
      cases e with
      | obj em =>
        cases b with
        | obj bm =>
          rw [mergeJson_obj_obj, mergeJson_obj_obj]
          have hm : sizeOf em < sizeOf (Json.obj em) := by
            simp only [Json.obj.sizeOf_spec]
            omega
          have hwf2 : keysNodupB em = true ∧ WFlist em = true := by
            simpa [WFb, Bool.and_eq_true] using hwf
          rw [(ih (sizeOf em) (lt_of_lt_of_le hm hsize)).2.2.2 bm em le_rfl
            hwf2.1 hwf2.2]
        | null =>
          rw [show mergeJson Json.null (Json.obj em) = Json.obj em from rfl]
          exact l1 _ hsize hwf
        | bool bb =>
          rw [show mergeJson (Json.bool bb) (Json.obj em) = Json.obj em from rfl]
          exact l1 _ hsize hwf
        | num bi =>
          rw [show mergeJson (Json.num bi) (Json.obj em) = Json.obj em from rfl]
          exact l1 _ hsize hwf
        | str bs =>
          rw [show mergeJson (Json.str bs) (Json.obj em) = Json.obj em from rfl]
          exact l1 _ hsize hwf
        | arr ba =>
          rw [show mergeJson (Json.arr ba) (Json.obj em) = Json.obj em from rfl]
          exact l1 _ hsize hwf
      | null =>
        have h0 : ∀ b : Json, mergeJson b Json.null = Json.null := by
          intro b
          cases b <;> rfl
        rw [h0, h0]
      | bool be =>
        have h0 : ∀ b : Json, mergeJson b (Json.bool be) = Json.bool be := by
          intro b
          cases b <;> rfl
        rw [h0, h0]
      | num ei =>
        have h0 : ∀ b : Json, mergeJson b (Json.num ei) = Json.num ei := by
          intro b
          cases b <;> rfl
        rw [h0, h0]
      | str es =>
        have h0 : ∀ b : Json, mergeJson b (Json.str es) = Json.str es := by
          intro b
          cases b <;> rfl
        rw [h0, h0]
      | arr ea =>
        have h0 : ∀ b : Json, mergeJson b (Json.arr ea) = Json.arr ea := by
          intro b
          cases b <;> rfl
        rw [h0, h0]
    exact ⟨l1, l2, m3, ml⟩

/-- C6: the external-override merge is idempotent — for every base value `C`
and well-formed external value `E` (objects with duplicate-free keys, as every
`serde_json::Map` is), `merge(merge(C,E),E) = merge(C,E)`. -/
theorem mergeJson_idempotent (C E : Json) (h : WFb E = true) :
    mergeJson (mergeJson C E) E = mergeJson C E :=
  (mergeLemmas (sizeOf E)).2.2.1 C E le_rfl h

/-- C6 witness: a concrete catalog object and external DATA object. -/
theorem mergeJson_idempotent_witness :
    WFb (Json.obj [("u", Json.obj [("region", Json.str "EUR")]), ("x", Json.num 3)]) =
      true ∧
    mergeJson (mergeJson
        (Json.obj [("u", Json.obj [("name", Json.str "A"), ("size", Json.num 10)]),
                   ("w", Json.null)])
        (Json.obj [("u", Json.obj [("region", Json.str "EUR")]), ("x", Json.num 3)]))
      (Json.obj [("u", Json.obj [("region", Json.str "EUR")]), ("x", Json.num 3)]) =
    mergeJson
      (Json.obj [("u", Json.obj [("name", Json.str "A"), ("size", Json.num 10)]),
                 ("w", Json.null)])
      (Json.obj [("u", Json.obj [("region", Json.str "EUR")]), ("x", Json.num 3)]) :=
  ⟨by rfl, mergeJson_idempotent _ _ (by rfl)⟩

/-! ## `utils.rs` primitives and `sfo_processor.rs`: the SFO decoder -/

/-- `read_u16_le` over an in-memory buffer at a byte position. -/
def readU16le (l : List Nat) (pos : Nat) : Nat :=
  l.getD pos 0 + 256 * l.getD (pos + 1) 0

/-- `read_u32_le` over an in-memory buffer at a byte position. -/
def readU32le (l : List Nat) (pos : Nat) : Nat :=
  l.getD pos 0 + 256 * l.getD (pos + 1) 0 + 65536 * l.getD (pos + 2) 0 +
    16777216 * l.getD (pos + 3) 0

/-- `extract_string` (utils.rs lines 5-13): bytes from `start` to the first
NUL or end of buffer, decoded as text (ASCII fidelity). -/
def extractString (l : List Nat) (start : Nat) : String :=
  String.mk (((l.drop start).takeWhile (· ≠ 0)).map Char.ofNat)

/-- `hex::encode`: two lowercase hex digits per byte. -/
def hexDigit (n : Nat) : Char :=
  "0123456789abcdef".toList.getD n 'x'

def hexEncode (l : List Nat) : String :=
  String.mk ((l.map fun b => [hexDigit (b % 256 / 16), hexDigit (b % 16)]).flatten)

/-- `HashMap::insert` on the SFO output map: replace the value of an existing
key, otherwise add the binding. -/
def upsertS : List (String × String) → String → String → List (String × String)
  | [], k, v => [(k, v)]
  | (k2, v2) :: rest, k, v =>
    if k2 = k then (k, v) :: rest else (k2, v2) :: upsertS rest k v

/-- Decoding of one SFO entry value by type tag (`sfo_processor.rs` lines
83-97): `0x0204` is a NUL-trimmed string, `0x0404` is the decimal rendering of
a little-endian u32 — but raw data shorter than 4 bytes is hex-dumped instead,
and raw data longer than 4 bytes makes `raw_value.try_into()?` fail, which the
`?` propagates as an error of the whole `process` call; any other tag is
hex-dumped. -/
def decodeValue (data_type : Nat) (raw : List Nat) : Except Unit String :=
  if data_type = 0x0204 then
    .ok (String.mk ((raw.reverse.dropWhile (· = 0)).reverse.map Char.ofNat))
  else if data_type = 0x0404 then
    if raw.length < 4 then .ok (hexEncode raw)
    else if raw.length = 4 then .ok (toString (readU32le raw 0))
    else .error ()
  else .ok (hexEncode raw)

/-- `SFOProcessor::process` (sfo_processor.rs lines 21-101): check the
`\x00PSF` magic, the 20-byte header, and the entry table size; then for each
entry read `(key_pos, data_type, data_size, max_size, data_pos)`, skip entries
whose key or data range is out of bounds, decode the value by type, and insert
into the output map.  A decode error (`try_into()?`) aborts the whole call. -/
def sfoProcess (buffer : List Nat) : Except Unit (List (String × String)) :=
  if ¬ (([0, 0x50, 0x53, 0x46] : List Nat).isPrefixOf buffer) then .error ()
  else if buffer.length < 20 then .error ()
  else if buffer.length < 20 + readU32le buffer 16 * 16 then .error ()
  else
    (List.range (readU32le buffer 16)).foldlM (fun out i =>
      if readU32le buffer 8 + readU16le buffer (20 + i * 16) ≥ buffer.length then
        pure out
      else if readU32le buffer 12 + readU32le buffer (20 + i * 16 + 12) +
          readU32le buffer (20 + i * 16 + 4) > buffer.length then
        pure out
      else
        match decodeValue (readU16le buffer (20 + i * 16 + 2))
            ((buffer.drop (readU32le buffer 12 + readU32le buffer (20 + i * 16 + 12))).take
              (readU32le buffer (20 + i * 16 + 4))) with
        | .ok value =>
          pure (upsertS out
            (extractString buffer (readU32le buffer 8 + readU16le buffer (20 + i * 16)))
            value)
        | .error e => .error e) []

/-- A fold in the `Except` monad returns the error as soon as one step can
only fail, wherever that step sits in the list. -/
theorem foldlM_except_error {α σ : Type} (f : σ → α → Except Unit σ) (a : α)
    (hf : ∀ s, f s a = .error ()) :
    ∀ (l1 l2 : List α) (init : σ), List.foldlM f init (l1 ++ a :: l2) = .error () := by
  intro l1
  induction l1 with
  | nil =>
    intro l2 init
    rw [List.nil_append, List.foldlM_cons, hf]
    rfl
  | cons x xs ih =>
    intro l2 init
    rw [List.cons_append, List.foldlM_cons]
    cases hx : f init x with
    | error e =>
      cases e
      rfl
    | ok s =>
      show List.foldlM f s (xs ++ a :: l2) = .error ()
      exact ih l2 s

theorem hexDigit_mem (n : Nat) (h : n < 16) :
    hexDigit n ∈ "0123456789abcdef".toList := by
  interval_cases n <;> decide

/-- C9: an in-bounds SFO entry of type `0x0404` whose data size exceeds 4
bytes makes `process` fail for the whole buffer, however many valid entries
surround it; an entry of type `0x0404` with fewer than 4 data bytes instead
decodes to the lowercase hex dump of its raw bytes. -/
theorem sfoProcess_u32_entry :
    (∀ (buffer : List Nat) (i : Nat),
      ([0, 0x50, 0x53, 0x46] : List Nat).isPrefixOf buffer = true →
      20 ≤ buffer.length →
      20 + readU32le buffer 16 * 16 ≤ buffer.length →
      i < readU32le buffer 16 →
      readU16le buffer (20 + i * 16 + 2) = 0x0404 →
      readU32le buffer 8 + readU16le buffer (20 + i * 16) < buffer.length →
      readU32le buffer 12 + readU32le buffer (20 + i * 16 + 12) +
          readU32le buffer (20 + i * 16 + 4) ≤ buffer.length →
      4 < readU32le buffer (20 + i * 16 + 4) →
      sfoProcess buffer = .error ()) ∧
    (∀ (data_type : Nat) (raw : List Nat), data_type = 0x0404 → raw.length < 4 →
      decodeValue data_type raw = .ok (hexEncode raw) ∧
      ∀ ch ∈ (hexEncode raw).toList, ch ∈ "0123456789abcdef".toList) := by
  constructor
  · intro buffer i hpre h20 hcnt hi ht hkey hdata hsize
    unfold sfoProcess
    rw [if_neg (by simp [hpre]), if_neg (by omega), if_neg (by omega)]
    obtain ⟨l1, l2, hsplit⟩ := List.append_of_mem (List.mem_range.2 hi)
    rw [hsplit]
    apply foldlM_except_error
    intro s
    rw [if_neg (by omega), if_neg (by omega)]
    have hraw : ((buffer.drop (readU32le buffer 12 +
        readU32le buffer (20 + i * 16 + 12))).take
          (readU32le buffer (20 + i * 16 + 4))).length =
        readU32le buffer (20 + i * 16 + 4) := by
      rw [List.length_take, List.length_drop]
      omega
    rw [ht]
    have hdec : decodeValue 0x0404 ((buffer.drop (readU32le buffer 12 +
        readU32le buffer (20 + i * 16 + 12))).take
          (readU32le buffer (20 + i * 16 + 4))) = .error () := by
      unfold decodeValue
      rw [if_neg (by norm_num), if_pos rfl, if_neg (by omega), if_neg (by omega)]
    rw [hdec]
  · intro data_type raw ht hlen
    subst ht
    refine ⟨by rw [decodeValue, if_neg (by norm_num), if_pos rfl, if_pos hlen], ?_⟩
    intro ch hch
    have hch2 : ch ∈ (raw.map fun b =>
        [hexDigit (b % 256 / 16), hexDigit (b % 16)]).flatten := hch
    rw [List.mem_flatten] at hch2
    obtain ⟨l, hl, hchl⟩ := hch2
    rw [List.mem_map] at hl
    obtain ⟨b, _, rfl⟩ := hl
    simp only [List.mem_cons, List.not_mem_nil, or_false] at hchl
    rcases hchl with rfl | rfl
    · exact hexDigit_mem _ (by omega)
    · exact hexDigit_mem _ (by omega)

/-- C9 witness: a concrete 43-byte SFO buffer whose single entry has type
`0x0404` and data size 5, and a short `0x0404` payload hex-dumped. -/
theorem sfoProcess_u32_entry_witness :
    (([0, 0x50, 0x53, 0x46] : List Nat).isPrefixOf
        [0, 0x50, 0x53, 0x46, 0, 0, 0, 0, 36, 0, 0, 0, 38, 0, 0, 0, 1, 0, 0, 0,
         0, 0, 4, 4, 5, 0, 0, 0, 0, 0, 0, 0, 0, 0, 0, 0, 65, 0, 1, 2, 3, 4, 5] = true ∧
      sfoProcess
        [0, 0x50, 0x53, 0x46, 0, 0, 0, 0, 36, 0, 0, 0, 38, 0, 0, 0, 1, 0, 0, 0,
         0, 0, 4, 4, 5, 0, 0, 0, 0, 0, 0, 0, 0, 0, 0, 0, 65, 0, 1, 2, 3, 4, 5] =
        .error ()) ∧
    (decodeValue 0x0404 [171, 205] = .ok (hexEncode [171, 205]) ∧
      ∀ ch ∈ (hexEncode [171, 205]).toList, ch ∈ "0123456789abcdef".toList) := by
  refine ⟨⟨by decide, ?_⟩, ?_⟩
  · exact sfoProcess_u32_entry.1 _ 0 (by decide) (by decide) (by decide) (by decide)
      (by decide) (by decide) (by decide) (by decide)
  · exact sfoProcess_u32_entry.2 0x0404 [171, 205] rfl (by decide)

/-! ## `ps4_package.rs`: file lookup (`locate_file`, `get_file`) -/

/-- One row of the PKG file table (`FileEntry`, ps4_package.rs lines 25-34). -/
structure FileEntry where
  name_pos : Nat
  flag1 : Nat
  flag2 : Nat
  offset : Nat
  size : Nat
  key_index : Nat
  encrypted : Bool
  name : Option String
deriving DecidableEq, Repr

/-- The parts of a parsed `PS4Package` that `locate_file`/`get_file` read: the
entry map (keyed by entry id, in HashMap iteration order), the content id, and
the bytes of the PKG file on disk. -/
structure PS4PackageModel where
  fileEntries : List (Nat × FileEntry)
  contentId : String
  fileBytes : List Nat
deriving DecidableEq, Repr

/-- Rust `trim_start_matches("0x")`: remove every leading `0x` occurrence. -/
def stripAll0x : List Char → List Char
  | '0' :: 'x' :: rest => stripAll0x rest
  | l => l

/-- `u32::from_str_radix(s, 16)`: optional leading `+`, then one or more hex
digits (no `0x` prefix needed), value must fit in a `u32`. -/
def parseHexU32 (l : List Char) : Option Nat :=
  let t := match l with
    | '+' :: rest => rest
    | _ => l
  if t ≠ [] ∧ t.all (fun c => (hexVal c).isSome) then
    let v := t.foldl (fun a ch => a * 16 + (hexVal ch).getD 0) 0
    if v < 2 ^ 32 then some v else none
  else none

/-- `locate_file` (ps4_package.rs lines 279-287): if
`from_str_radix(identifier.trim_start_matches("0x"), 16)` succeeds the entry
map is keyed by that id; otherwise the first entry whose resolved name equals
the identifier is returned. -/
def locateFile (p : PS4PackageModel) (identifier : String) : Option FileEntry :=
  match parseHexU32 (stripAll0x identifier.toList) with
  | some entry_id => assocLookup p.fileEntries entry_id
  | none =>
    (p.fileEntries.find? fun kv => kv.2.name == some identifier).map (·.2)

/-- `get_file` (ps4_package.rs lines 253-269): locate, bounds-check
`offset + size` against the PKG length, and read exactly `size` bytes from
`offset`. -/
def getFile (p : PS4PackageModel) (identifier : String) : Option (List Nat) :=
  match locateFile p identifier with
  | none => none
  | some fd =>
    if fd.offset + fd.size > p.fileBytes.length then none
    else some ((p.fileBytes.drop fd.offset).take fd.size)

/-- The claim's version of the lookup, written from its words: the identifier
is matched against entry ids exactly when it is `0x` followed by hex digits,
and otherwise matched as a plain name. -/
def locateFileClaim (p : PS4PackageModel) (identifier : String) : Option FileEntry :=
  match identifier.toList with
  | '0' :: 'x' :: rest =>
    match parseHexU32 rest with
    | some n => assocLookup p.fileEntries n
    | none => (p.fileEntries.find? fun kv => kv.2.name == some identifier).map (·.2)
  | _ => (p.fileEntries.find? fun kv => kv.2.name == some identifier).map (·.2)

/-- A one-entry package whose entry id 2748 (= 0xabc) is named `other`. -/
def pkgHexName : PS4PackageModel :=
  { fileEntries := [(2748,
      { name_pos := 0, flag1 := 0, flag2 := 0, offset := 0, size := 1,
        key_index := 0, encrypted := false, name := some "other" })]
    contentId := ""
    fileBytes := [9] }

/-- C7 counterexample: the identifier `abc` carries no `0x` prefix, so by the
claim it must be matched as a plain name (and fail: no entry is named `abc`);
the code instead parses it as hex 0xabc = 2748 and returns that entry. -/
theorem locateFile_counterexample :
    locateFile pkgHexName "abc" =
      some { name_pos := 0, flag1 := 0, flag2 := 0, offset := 0, size := 1,
             key_index := 0, encrypted := false, name := some "other" } ∧
    locateFileClaim pkgHexName "abc" = none := by
  exact ⟨by decide, by decide⟩

/-- C7 amended: the identifier is matched against entry ids exactly when
stripping every leading `0x` leaves a string `from_str_radix` accepts as a hex
u32 (so plain hex names are also treated as ids), otherwise as a plain name;
`get_file` fails when `offset + size` exceeds the PKG length and otherwise
returns exactly the `size` bytes at `offset`. -/
theorem locateFile_getFile_spec :
    (∀ (p : PS4PackageModel) (id : String) (n : Nat),
      parseHexU32 (stripAll0x id.toList) = some n →
      locateFile p id = assocLookup p.fileEntries n) ∧
    (∀ (p : PS4PackageModel) (id : String),
      parseHexU32 (stripAll0x id.toList) = none →
      locateFile p id =
        (p.fileEntries.find? fun kv => kv.2.name == some id).map (·.2)) ∧
    (∀ (p : PS4PackageModel) (id : String) (fd : FileEntry),
      locateFile p id = some fd →
      (fd.offset + fd.size > p.fileBytes.length → getFile p id = none) ∧
      (fd.offset + fd.size ≤ p.fileBytes.length →
        getFile p id = some ((p.fileBytes.drop fd.offset).take fd.size) ∧
        ((p.fileBytes.drop fd.offset).take fd.size).length = fd.size)) := by
  refine ⟨?_, ?_, ?_⟩
  · intro p id n h
    unfold locateFile
    rw [h]
  · intro p id h
    unfold locateFile
    rw [h]
  · intro p id fd h
    constructor
    · intro hb
      unfold getFile
      rw [h]
      show (if fd.offset + fd.size > p.fileBytes.length then none
        else some ((p.fileBytes.drop fd.offset).take fd.size)) = none
      rw [if_pos hb]
    · intro hb
      refine ⟨?_, ?_⟩
      · unfold getFile
        rw [h]
        show (if fd.offset + fd.size > p.fileBytes.length then none
          else some ((p.fileBytes.drop fd.offset).take fd.size)) =
          some ((p.fileBytes.drop fd.offset).take fd.size)
        rw [if_neg (by omega)]
      · rw [List.length_take, List.length_drop]
        omega

/-- The file-table entry used by the C7 witness: id 0x200, named `param.sfo`,
2 bytes at offset 1. -/
def entryParamSfo : FileEntry :=
  { name_pos := 0, flag1 := 0, flag2 := 0, offset := 1, size := 2,
    key_index := 0, encrypted := false, name := some "param.sfo" }

def pkgParamSfo : PS4PackageModel :=
  { fileEntries := [(512, entryParamSfo)]
    contentId := ""
    fileBytes := [5, 6, 7, 8] }

/-- C7 amended witness: an id-keyed lookup through `0x200`, a name lookup of
`param.sfo`, and an in-bounds read. -/
theorem locateFile_getFile_spec_witness :
    (parseHexU32 (stripAll0x "0x200".toList) = some 512 ∧
      locateFile pkgParamSfo "0x200" = assocLookup pkgParamSfo.fileEntries 512) ∧
    (parseHexU32 (stripAll0x "param.sfo".toList) = none ∧
      locateFile pkgParamSfo "param.sfo" =
        (pkgParamSfo.fileEntries.find? fun kv =>
          kv.2.name == some "param.sfo").map (·.2)) ∧
    (locateFile pkgParamSfo "param.sfo" = some entryParamSfo ∧
      entryParamSfo.offset + entryParamSfo.size ≤ pkgParamSfo.fileBytes.length ∧
      getFile pkgParamSfo "param.sfo" =
        some ((pkgParamSfo.fileBytes.drop entryParamSfo.offset).take
          entryParamSfo.size) ∧
      ((pkgParamSfo.fileBytes.drop entryParamSfo.offset).take
        entryParamSfo.size).length = entryParamSfo.size) := by
  refine ⟨⟨by decide, ?_⟩, ⟨by decide, ?_⟩, by decide, by decide, ?_⟩
  · exact locateFile_getFile_spec.1 pkgParamSfo "0x200" 512 (by decide)
  · exact locateFile_getFile_spec.2.1 pkgParamSfo "param.sfo" (by decide)
  · exact (locateFile_getFile_spec.2.2 pkgParamSfo "param.sfo" entryParamSfo
      (by decide)).2 (by decide)

/-! ## `json_builder.rs`: the catalog builder (`handle_packages`)

The walk over the packages tree is modelled as a list of `WalkEntry` records,
one per filesystem object `WalkDir` yields; the fields carry the outcome of
the filesystem calls the loop body makes (`fs::metadata(&path)?` and
`PS4Package::new`).  Icons and external overrides are not configured (`--icons`
and `--external` absent), matching the claims under verification. -/

def CATEGORY_MAP : List (String × String) :=
  [("gd", "games"), ("gp", "updates"), ("ac", "DLC"), ("gde", "homebrew")]

/-- `parse_region_from_content_id` (json_builder.rs lines 36-44). -/
def parseRegionFromContentId (content_id : String) : String :=
  match (content_id.toList.take 2).map Char.toUpper with
  | ['J', 'P'] => "JAP"
  | ['U', 'P'] => "USA"
  | ['E', 'P'] => "EUR"
  | _ => "UNK"

/-- Generic `HashMap::insert`: replace an existing binding or append. -/
def upsertA {κ β : Type} [DecidableEq κ] : List (κ × β) → κ → β → List (κ × β)
  | [], k, v => [(k, v)]
  | (k2, v2) :: rest, k, v =>
    if k2 = k then (k, v) :: rest else (k2, v2) :: upsertA rest k v

/-- `build_json_schema` (json_builder.rs lines 23-34): rows of
`(source SFO key, target field, default string, default integer)`. -/
def buildJsonSchema (icon_link : Option String) (pkg_bytes : Nat) :
    List (Option String × String × Option String × Option Nat) :=
  [(some "TITLE_ID", "title_id", none, none),
   (none, "region", none, none),
   (some "TITLE", "name", none, none),
   (some "APP_VER", "version", none, none),
   (none, "release", none, none),
   (none, "size", none, some pkg_bytes),
   (none, "min_fw", none, none),
   (none, "cover_url", icon_link, none)]

/-- `convert_sfo_to_json` (json_builder.rs lines 46-69): project the SFO map
through the schema into the catalog entry, and return
`(raw CATEGORY value defaulted to "gd", base_link/pkg_link, entry)`. -/
def convertSfoToJson (base_link pkg_link : String) (pkg_bytes : Nat)
    (icon_path : Option String) (sfo_data : List (String × String))
    (content_id : String) : String × String × List (String × Json) :=
  let icon_link := icon_path.map fun p => base_link ++ "/" ++ p
  let region := parseRegionFromContentId content_id
  let json_output := (buildJsonSchema icon_link pkg_bytes).foldl
    (fun out sch =>
      let value : Option Json :=
        match sch.1 with
        | some sfo_key => (assocLookup sfo_data sfo_key).map Json.str
        | none =>
          if sch.2.1 = "region" then some (Json.str region)
          else if sch.2.1 = "size" then sch.2.2.2.map fun n => Json.num (Int.ofNat n)
          else
            match sch.2.2.1 with
            | some s => some (Json.str s)
            | none => some Json.null
      upsertA out sch.2.1 (value.getD Json.null)) []
  ((assocLookup sfo_data "CATEGORY").getD "gd",
   base_link ++ "/" ++ pkg_link, json_output)

/-- The category selection of `handle_packages` (json_builder.rs line 156):
look the raw CATEGORY value up in `CATEGORY_MAP`, falling back to `games`. -/
def mapCategory (cat : String) : String :=
  ((CATEGORY_MAP.find? fun p => p.1 == cat).map (·.2)).getD "games"

/-- `Path::file_name` on a `/`-separated relative path. -/
def fileName (l : List Char) : List Char :=
  (l.reverse.takeWhile (· ≠ '/')).reverse

/-- `Path::extension`: the part of the file name after the last `.`; none when
there is no `.`, or when the only `.` is the leading one of a dotfile. -/
def rustExtension (l : List Char) : Option (List Char) :=
  let f := fileName l
  let revAfter := f.reverse.takeWhile (· ≠ '.')
  if revAfter.length = f.length then none
  else if revAfter.length + 1 = f.length ∧ f.head? = some '.' then none
  else some revAfter.reverse

def hexDigitUpper (n : Nat) : Char :=
  "0123456789ABCDEF".toList.getD n 'X'

/-- `utf8_percent_encode` with the `CONTROLS` set plus space
(json_builder.rs line 21): controls (0x00-0x1F, 0x7F) and the space are
escaped, everything else passes through. -/
def percentEncodeCS (l : List Char) : List Char :=
  (l.map fun ch =>
    if ch.toNat < 32 ∨ ch.toNat = 127 ∨ ch = ' ' then
      ['%', hexDigitUpper (ch.toNat % 256 / 16), hexDigitUpper (ch.toNat % 16)]
    else [ch]).flatten

/-- `pkg.get_file("param.sfo").unwrap_or_default()` (json_builder.rs
line 117). -/
def paramSfoOf (p : PS4PackageModel) : List Nat :=
  match getFile p "param.sfo" with
  | some b => b
  | none => []

instance exceptDecEq {ε α : Type} [DecidableEq ε] [DecidableEq α] :
    DecidableEq (Except ε α)
  | .ok a, .ok b =>
    if h : a = b then .isTrue (congrArg Except.ok h)
    else .isFalse fun hh => h (Except.ok.inj hh)
  | .ok _, .error _ => .isFalse fun hh => Except.noConfusion hh
  | .error _, .ok _ => .isFalse fun hh => Except.noConfusion hh
  | .error e1, .error e2 =>
    if h : e1 = e2 then .isTrue (congrArg Except.error h)
    else .isFalse fun hh => h (Except.error.inj hh)

/-- One filesystem object yielded by the `WalkDir` iteration, with the
outcomes of the per-entry filesystem calls. -/
structure WalkEntry where
  relPath : List Char
  metadataLen : Except Unit Nat
  parsed : Except Unit PS4PackageModel
deriving DecidableEq

/-- The catalog: category name → (URL → entry). -/
abbrev Catalog := List (String × List (String × List (String × Json)))

def initialCatalog : Catalog := CATEGORY_MAP.map fun p => (p.2, [])

/-- `output_data.get_mut(category).unwrap().insert(link, json_entry)`
(json_builder.rs line 157); the category is always one of the four the
catalog was initialized with. -/
def catInsert (cat : Catalog) (category link : String)
    (entry : List (String × Json)) : Catalog :=
  cat.map fun p => if p.1 = category then (p.1, upsertA p.2 link entry) else p

/-- The body of the per-entry loop of `handle_packages` (json_builder.rs lines
96-158) for the no-icons configuration: skip non-`.pkg` paths, propagate
(`?`) a metadata failure, skip a PKG-parse or SFO-parse failure with a log,
and otherwise insert the converted entry under the mapped category. -/
def handleStep (base_url pkg_url_root : String) (cat : Catalog)
    (e : WalkEntry) : Except Unit Catalog :=
  if rustExtension e.relPath ≠ some "pkg".toList then pure cat
  else
    match e.metadataLen with
    | .error u => .error u
    | .ok pkg_bytes =>
      match e.parsed with
      | .error _ => pure cat
      | .ok pkg =>
        match sfoProcess (paramSfoOf pkg) with
        | .error _ => pure cat
        | .ok sfo_data =>
          let r := convertSfoToJson base_url
            (pkg_url_root ++ "/" ++ String.mk (percentEncodeCS e.relPath))
            pkg_bytes none sfo_data pkg.contentId
          pure (catInsert cat (mapCategory r.1) r.2.1 r.2.2)

/-- `handle_packages` over the walked entries (no icons, no external
overrides). -/
def handlePackages (base_url pkg_url_root : String)
    (entries : List WalkEntry) : Except Unit Catalog :=
  entries.foldlM (handleStep base_url pkg_url_root) initialCatalog

/-! ### C4: parse failures are skipped, metadata failures abort -/

theorem handleStep_skip_parse {u root : String} {c : Catalog} {e : WalkEntry}
    {nb : Nat} (hext : rustExtension e.relPath = some "pkg".toList)
    (hmeta : e.metadataLen = .ok nb) (hp : e.parsed = .error ()) :
    handleStep u root c e = .ok c := by
  unfold handleStep
  rw [if_neg (by simp [hext]), hmeta, hp]
  rfl

theorem handleStep_skip_sfo {u root : String} {c : Catalog} {e : WalkEntry}
    {nb : Nat} {pkg : PS4PackageModel}
    (hext : rustExtension e.relPath = some "pkg".toList)
    (hmeta : e.metadataLen = .ok nb) (hp : e.parsed = .ok pkg)
    (hs : sfoProcess (paramSfoOf pkg) = .error ()) :
    handleStep u root c e = .ok c := by
  unfold handleStep
  rw [if_neg (by simp [hext]), hmeta, hp]
  show (match sfoProcess (paramSfoOf pkg) with
    | Except.error _ => (pure c : Except Unit Catalog)
    | Except.ok sfo_data =>
      let r := convertSfoToJson u (root ++ "/" ++ String.mk (percentEncodeCS e.relPath))
        nb none sfo_data pkg.contentId
      pure (catInsert c (mapCategory r.1) r.2.1 r.2.2)) = Except.ok c
  rw [hs]
  rfl

theorem handleStep_ok {u root : String} {c : Catalog} {e : WalkEntry}
    {nb : Nat} {pkg : PS4PackageModel} {sfo : List (String × String)}
    (hext : rustExtension e.relPath = some "pkg".toList)
    (hmeta : e.metadataLen = .ok nb) (hp : e.parsed = .ok pkg)
    (hs : sfoProcess (paramSfoOf pkg) = .ok sfo) :
    handleStep u root c e = .ok (catInsert c
      (mapCategory ((assocLookup sfo "CATEGORY").getD "gd"))
      (u ++ "/" ++ (root ++ "/" ++ String.mk (percentEncodeCS e.relPath)))
      ((convertSfoToJson u (root ++ "/" ++ String.mk (percentEncodeCS e.relPath))
        nb none sfo pkg.contentId).2.2)) := by
  unfold handleStep
  rw [if_neg (by simp [hext]), hmeta, hp]
  show (match sfoProcess (paramSfoOf pkg) with
    | Except.error _ => (pure c : Except Unit Catalog)
    | Except.ok sfo_data =>
      let r := convertSfoToJson u (root ++ "/" ++ String.mk (percentEncodeCS e.relPath))
        nb none sfo_data pkg.contentId
      pure (catInsert c (mapCategory r.1) r.2.1 r.2.2)) = _
  rw [hs]
  rfl

/-- C4 amended: (1) removing an entry whose PKG parse or SFO parse fails does
not change the run's result — the failure is logged, skipped, and every other
entry contributes exactly as before; (2) a parseable entry's step succeeds and
inserts its converted entry under the mapped category; (3) the run over
`es ++ [good]` is the run over `es` followed by `good`'s step. -/
theorem handlePackages_skip_failures :
    (∀ (u root : String) (pre post : List WalkEntry) (bad : WalkEntry) (nb : Nat),
      rustExtension bad.relPath = some "pkg".toList →
      bad.metadataLen = .ok nb →
      (bad.parsed = .error () ∨
        ∃ pkg, bad.parsed = .ok pkg ∧ sfoProcess (paramSfoOf pkg) = .error ()) →
      handlePackages u root (pre ++ bad :: post) = handlePackages u root (pre ++ post)) ∧
    (∀ (u root : String) (cat : Catalog) (good : WalkEntry) (nb : Nat)
        (pkg : PS4PackageModel) (sfo : List (String × String)),
      rustExtension good.relPath = some "pkg".toList →
      good.metadataLen = .ok nb →
      good.parsed = .ok pkg →
      sfoProcess (paramSfoOf pkg) = .ok sfo →
      handleStep u root cat good = .ok (catInsert cat
        (mapCategory ((assocLookup sfo "CATEGORY").getD "gd"))
        (u ++ "/" ++ (root ++ "/" ++ String.mk (percentEncodeCS good.relPath)))
        ((convertSfoToJson u (root ++ "/" ++ String.mk (percentEncodeCS good.relPath))
          nb none sfo pkg.contentId).2.2))) ∧
    (∀ (u root : String) (es : List WalkEntry) (good : WalkEntry),
      handlePackages u root (es ++ [good]) =
        handlePackages u root es >>= fun cat => handleStep u root cat good) := by
  refine ⟨?_, fun u root cat good nb pkg sfo hext hmeta hp hs =>
    handleStep_ok hext hmeta hp hs, ?_⟩
  · intro u root pre post bad nb hext hmeta hfail
    have hstep : ∀ c, handleStep u root c bad = .ok c := by
      intro c
      rcases hfail with hp | ⟨pkg, hp, hs⟩
      · exact handleStep_skip_parse hext hmeta hp
      · exact handleStep_skip_sfo hext hmeta hp hs
    unfold handlePackages
    rw [List.foldlM_append, List.foldlM_append]
    cases hpre : List.foldlM (handleStep u root) initialCatalog pre with
    | error e => rfl
    | ok c =>
      show List.foldlM (handleStep u root) c (bad :: post) =
        List.foldlM (handleStep u root) c post
      rw [List.foldlM_cons, hstep c]
      rfl
  · intro u root es good
    unfold handlePackages
    rw [List.foldlM_append]
    cases hes : List.foldlM (handleStep u root) initialCatalog es with
    | error e => rfl
    | ok c =>
      show List.foldlM (handleStep u root) c [good] = handleStep u root c good
      rw [List.foldlM_cons]
      cases hst : handleStep u root c good <;> rfl

/-- A minimal valid SFO buffer: magic, 20-byte header, zero entries. -/
def sfoMinimal : List Nat :=
  [0, 0x50, 0x53, 0x46, 0, 0, 0, 0, 20, 0, 0, 0, 20, 0, 0, 0, 0, 0, 0, 0]

/-- A parseable package whose `param.sfo` is `sfoMinimal`. -/
def pkgGood : PS4PackageModel :=
  { fileEntries := [(512,
      { name_pos := 0, flag1 := 0, flag2 := 0, offset := 0, size := 20,
        key_index := 0, encrypted := false, name := some "param.sfo" })]
    contentId := "UP1234"
    fileBytes := sfoMinimal }

/-- A walk entry whose PKG parses and whose SFO parses to the empty map. -/
def goodWalkEntry : WalkEntry :=
  { relPath := "b.pkg".toList, metadataLen := .ok 20, parsed := .ok pkgGood }

/-- A walk entry whose `fs::metadata` call fails. -/
def badMetaEntry : WalkEntry :=
  { relPath := "a.pkg".toList, metadataLen := .error (), parsed := .error () }

/-- A walk entry whose PKG parse fails. -/
def badParseEntry : WalkEntry :=
  { relPath := "c.pkg".toList, metadataLen := .ok 10, parsed := .error () }

/-- C4 counterexample: a `fs::metadata(&path)?` failure on one PKG — a failure
localized to that PKG — aborts the whole run through the `?` operator: the
run over `[badMetaEntry, goodWalkEntry]` errors and the subsequent good PKG is
dropped, while the same run without the failing entry succeeds. -/
theorem handlePackages_metadata_aborts :
    handlePackages "http://h" "pkgs" [badMetaEntry, goodWalkEntry] = .error () ∧
    (handlePackages "http://h" "pkgs" [goodWalkEntry]).isOk = true ∧
    badMetaEntry.metadataLen = .error () := by
  exact ⟨by rfl, by rfl, by rfl⟩

/-- C4 amended witness: dropping a failing-parse entry leaves the run
unchanged; the good entry's step inserts under `games`. -/
theorem handlePackages_skip_failures_witness :
    (rustExtension badParseEntry.relPath = some "pkg".toList ∧
      badParseEntry.metadataLen = .ok 10 ∧
      badParseEntry.parsed = .error () ∧
      handlePackages "u" "p" ([] ++ badParseEntry :: [goodWalkEntry]) =
        handlePackages "u" "p" ([] ++ [goodWalkEntry])) ∧
    (rustExtension goodWalkEntry.relPath = some "pkg".toList ∧
      goodWalkEntry.metadataLen = .ok 20 ∧
      goodWalkEntry.parsed = .ok pkgGood ∧
      sfoProcess (paramSfoOf pkgGood) = .ok [] ∧
      handleStep "u" "p" initialCatalog goodWalkEntry = .ok (catInsert initialCatalog
        (mapCategory ((assocLookup ([] : List (String × String)) "CATEGORY").getD "gd"))
        ("u" ++ "/" ++ ("p" ++ "/" ++ String.mk (percentEncodeCS goodWalkEntry.relPath)))
        ((convertSfoToJson "u" ("p" ++ "/" ++ String.mk (percentEncodeCS goodWalkEntry.relPath))
          20 none [] pkgGood.contentId).2.2))) ∧
    handlePackages "u" "p" ([goodWalkEntry] ++ [goodWalkEntry]) =
      (handlePackages "u" "p" [goodWalkEntry] >>= fun cat =>
        handleStep "u" "p" cat goodWalkEntry) := by
  refine ⟨⟨by decide, by decide, by decide, ?_⟩, ⟨by decide, by decide, by decide,
    by decide, ?_⟩, ?_⟩
  · exact handlePackages_skip_failures.1 "u" "p" [] [goodWalkEntry] badParseEntry 10
      (by decide) (by decide) (Or.inl (by decide))
  · exact handlePackages_skip_failures.2.1 "u" "p" initialCatalog goodWalkEntry 20
      pkgGood [] (by decide) (by decide) (by decide) (by decide)
  · exact handlePackages_skip_failures.2.2 "u" "p" [goodWalkEntry] goodWalkEntry

/-! ### C5: category selection -/

/-- The claim's category map, written from its words: `gd→games`,
`gp→updates`, `ac→DLC`, `gde→homebrew`, anything else (a missing CATEGORY key
included) routes to `games`. -/
def categorySpec : Option String → String
  | none => "games"
  | some s =>
    if s = "gd" then "games"
    else if s = "gp" then "updates"
    else if s = "ac" then "DLC"
    else if s = "gde" then "homebrew"
    else "games"

/-- C5: for every processed package the catalog category — computed by
`handle_packages` as the `CATEGORY_MAP` lookup of the SFO CATEGORY value
defaulted to `gd` — agrees with the claim's closed map, and
`convert_sfo_to_json` indeed forwards the SFO CATEGORY value (default `gd`). -/
theorem category_selection (sfo_data : List (String × String)) (u pl : String)
    (pb : Nat) (ip : Option String) (cid : String) :
    mapCategory ((assocLookup sfo_data "CATEGORY").getD "gd") =
      categorySpec (assocLookup sfo_data "CATEGORY") ∧
    (convertSfoToJson u pl pb ip sfo_data cid).1 =
      (assocLookup sfo_data "CATEGORY").getD "gd" := by
  constructor
  · cases hl : assocLookup sfo_data "CATEGORY" with
    | none => rfl
    | some s =>
      show mapCategory s = categorySpec (some s)
      by_cases h1 : s = "gd"
      · subst h1; rfl
      by_cases h2 : s = "gp"
      · subst h2; rfl
      by_cases h3 : s = "ac"
      · subst h3; rfl
      by_cases h4 : s = "gde"
      · subst h4; rfl
      have e1 : (("gd" : String) == s) = false := by
        simp only [beq_eq_false_iff_ne]
        exact fun h => h1 h.symm
      have e2 : (("gp" : String) == s) = false := by
        simp only [beq_eq_false_iff_ne]
        exact fun h => h2 h.symm
      have e3 : (("ac" : String) == s) = false := by
        simp only [beq_eq_false_iff_ne]
        exact fun h => h3 h.symm
      have e4 : (("gde" : String) == s) = false := by
        simp only [beq_eq_false_iff_ne]
        exact fun h => h4 h.symm
      simp [mapCategory, CATEGORY_MAP, List.find?, e1, e2, e3, e4, categorySpec,
        h1, h2, h3, h4]
  · rfl

/-! ### C8: order of HTML listings -/

theorem string_append_empty (s : String) : s ++ "" = s := by
  cases s with
  | mk d => exact congrArg String.mk (List.append_nil d)

theorem string_append_assoc (a b c : String) : a ++ b ++ c = a ++ (b ++ c) := by
  cases a with
  | mk da =>
    cases b with
    | mk db =>
      cases c with
      | mk dc => exact congrArg String.mk (List.append_assoc da db dc)

/-- Concatenation of a list of strings (statement apparatus for C8). -/
def concatList : List String → String
  | [] => ""
  | x :: xs => x ++ concatList xs

theorem foldl_append_concat {α : Type} (f : α → String) :
    ∀ (l : List α) (init : String),
      l.foldl (fun acc x => acc ++ f x) init = init ++ concatList (l.map f) := by
  intro l
  induction l with
  | nil =>
    intro init
    exact (string_append_empty init).symm
  | cons x xs ih =>
    intro init
    rw [List.foldl_cons, ih, List.map_cons, string_append_assoc]
    rfl

/-- Case-insensitive string order on the character lists (statement apparatus
for C8). -/
def leCI : List Char → List Char → Bool
  | [], _ => true
  | _ :: _, [] => false
  | a :: as, b :: bs =>
    if a.toLower = b.toLower then leCI as bs
    else decide (a.toLower < b.toLower)

def insertCI (s : String) : List String → List String
  | [] => [s]
  | x :: xs => if leCI s.toList x.toList then s :: x :: xs else x :: insertCI s xs

/-- Case-insensitive insertion sort: the order the claim says listings use. -/
def sortCI (l : List String) : List String := l.foldr insertCI []

/-- C8 counterexample: with the map iteration yielding `b` before `A` (an
order every `HashMap` may produce) the emitted index page differs from the
case-insensitively sorted page, and likewise for a directory listing in
readdir order — the code sorts neither. -/
theorem html_listing_unsorted :
    directoryIndexHtml [("b", "x"), ("A", "y")] ≠
      directoryIndexHtml ((sortCI ([("b", "x"), ("A", "y")].map Prod.fst)).map
        fun n => (n, "")) ∧
    directoryListingHtml "/d/" ["b", "A"] ≠
      directoryListingHtml "/d/" (sortCI ["b", "A"]) ∧
    sortCI ["b", "A"] = ["A", "b"] := by
  exact ⟨by decide, by decide, by decide⟩

/-- C8 amended: the HTML pages list names exactly in the order given — the
directory map's iteration order for `GET /` and readdir order for directory
listings — one `<li>` per name between fixed header and footer; no sorting is
applied. -/
theorem html_listing_order :
    (∀ dirs : List (String × String),
      directoryIndexHtml dirs =
        "<!DOCTYPE html>\n<html>\n<head><title>Directory Index</title></head>\n<body>\n<h1>Available Directories</h1>\n<ul>\n" ++
          concatList (dirs.map fun p =>
            "<li><a href=\"/" ++ p.1 ++ "/\">" ++ p.1 ++ "</a></li>\n") ++
          "</ul>\n</body>\n</html>") ∧
    (∀ (fp : String) (entries : List String),
      directoryListingHtml fp entries =
        "<!DOCTYPE html>\n<html><body><h1>Directory Contents</h1><ul>\n" ++
          concatList (entries.map fun name =>
            "<li><a href=\"" ++
              (if fp.toList.getLast? = some '/' then fp ++ name
               else fp ++ "/" ++ name) ++ "\">" ++ name ++ "</a></li>\n") ++
          "</ul></body></html>") := by
  constructor
  · intro dirs
    unfold directoryIndexHtml
    rw [foldl_append_concat (fun p : String × String =>
      "<li><a href=\"/" ++ p.1 ++ "/\">" ++ p.1 ++ "</a></li>\n") dirs]
  · intro fp entries
    unfold directoryListingHtml
    rw [foldl_append_concat (fun name =>
      "<li><a href=\"" ++
        (if fp.toList.getLast? = some '/' then fp ++ name
         else fp ++ "/" ++ name) ++ "\">" ++ name ++ "</a></li>\n") entries]

/-- C1: a GET for a regular file with a `Range: bytes=a-b` header that parses
in bounds (`0 ≤ a ≤ b < file_size`) yields `206 Partial Content` with
`Content-Length = b-a+1`, `Content-Range: bytes a-b/file_size`, and the body
transmitted under that Content-Length is exactly the `b-a+1` bytes of the file
starting at offset `a`, for every stream chunk size; a Range header that fails
to parse or is out of bounds falls through to `200 OK` with the whole file;
an empty upper bound parses as `file_size - 1`. -/
theorem serveFile_range_correct :
    (∀ (content : List Nat) (c : Nat) (rh : List Char) (a b : Nat),
      parseRange rh content.length = some (a, b) →
      a ≤ b ∧ b < content.length ∧
      ∃ r, serveFile c content true true (some rh) = some r ∧
        r.status = 206 ∧
        r.headers = [("Content-Type", "application/octet-stream"),
                     ("Content-Length", toString (b - a + 1)),
                     ("Content-Range",
                      "bytes " ++ toString a ++ "-" ++ toString b ++ "/" ++
                        toString content.length),
                     ("Accept-Ranges", "bytes")] ∧
        transmittedBody r (b - a + 1) = (content.drop a).take (b - a + 1) ∧
        (transmittedBody r (b - a + 1)).length = b - a + 1) ∧
    (∀ (content : List Nat) (c : Nat) (rh : List Char),
      parseRange rh content.length = none →
      serveFile c content true true (some rh) = some (fullFileResponse c content) ∧
      (fullFileResponse c content).status = 200 ∧
      (fullFileResponse c content).bodyChunks.flatten = content) ∧
    (∀ (before : List Char) (fs a : Nat),
      0 < fs → fs < 2 ^ 64 → (∀ ch ∈ before, ch ≠ '-') →
      parseU64Chars (trimChars before) = some a → a ≤ fs - 1 →
      parseRange ("bytes=".toList ++ (before ++ ['-'])) fs = some (a, fs - 1)) := by
  refine ⟨?_, ?_, parseRange_empty_upper⟩
  · intro content c rh a b h
    have hb := parseRange_sound h
    refine ⟨hb.1, hb.2, ?_⟩
    refine ⟨{ status := 206
              headers := [("Content-Type", "application/octet-stream"),
                          ("Content-Length", toString (b - a + 1)),
                          ("Content-Range",
                           "bytes " ++ toString a ++ "-" ++ toString b ++ "/" ++
                             toString content.length),
                          ("Accept-Ranges", "bytes")]
              bodyChunks := (chunkStream c (content.drop a)).take (b - a + 1) },
      by simp [serveFile, h], rfl, rfl, ?_, ?_⟩
    · exact chunkStream_take_flatten_take c (b - a + 1) (content.drop a)
    · rw [transmittedBody]
      show (((chunkStream c (content.drop a)).take (b - a + 1)).flatten.take
        (b - a + 1)).length = b - a + 1
      rw [chunkStream_take_flatten_take c (b - a + 1) (content.drop a),
        List.length_take, List.length_drop]
      omega
  · intro content c rh h
    exact ⟨by simp [serveFile, h], rfl, chunkStream_flatten c content⟩

/-- C1 witness: concrete instances discharging each hypothesis of
`serveFile_range_correct`. -/
theorem serveFile_range_correct_witness :
    (parseRange ("bytes=2-5".toList) ([3, 1, 4, 1, 5, 9, 2, 6, 5, 3] : List Nat).length =
        some (2, 5) ∧
      2 ≤ 5 ∧ 5 < ([3, 1, 4, 1, 5, 9, 2, 6, 5, 3] : List Nat).length ∧
      ∃ r, serveFile 0 [3, 1, 4, 1, 5, 9, 2, 6, 5, 3] true true
          (some ("bytes=2-5".toList)) = some r ∧
        r.status = 206 ∧
        r.headers = [("Content-Type", "application/octet-stream"),
                     ("Content-Length", toString (5 - 2 + 1)),
                     ("Content-Range",
                      "bytes " ++ toString 2 ++ "-" ++ toString 5 ++ "/" ++
                        toString ([3, 1, 4, 1, 5, 9, 2, 6, 5, 3] : List Nat).length),
                     ("Accept-Ranges", "bytes")] ∧
        transmittedBody r (5 - 2 + 1) =
          (([3, 1, 4, 1, 5, 9, 2, 6, 5, 3] : List Nat).drop 2).take (5 - 2 + 1) ∧
        (transmittedBody r (5 - 2 + 1)).length = 5 - 2 + 1) ∧
    (parseRange ("bytes=4-99".toList) ([3, 1, 4] : List Nat).length = none ∧
      serveFile 1 [3, 1, 4] true true (some ("bytes=4-99".toList)) =
        some (fullFileResponse 1 [3, 1, 4]) ∧
      (fullFileResponse 1 [3, 1, 4]).status = 200 ∧
      (fullFileResponse 1 [3, 1, 4]).bodyChunks.flatten = [3, 1, 4]) ∧
    (0 < 10 ∧ (10 : Nat) < 2 ^ 64 ∧ (∀ ch ∈ ("7".toList : List Char), ch ≠ '-') ∧
      parseU64Chars (trimChars "7".toList) = some 7 ∧ 7 ≤ 10 - 1 ∧
      parseRange ("bytes=".toList ++ ("7".toList ++ ['-'])) 10 = some (7, 10 - 1)) := by
  refine ⟨⟨by decide, serveFile_range_correct.1 _ 0 _ 2 5 (by decide)⟩,
    ⟨by decide, serveFile_range_correct.2.1 _ 1 _ (by decide)⟩,
    by decide, by norm_num, by decide, by decide, by decide,
    serveFile_range_correct.2.2 _ 10 7 (by decide) (by norm_num) (by decide)
      (by decide) (by decide)⟩

/-! ## Concrete filesystem models used by the routing theorems -/

/-- A filesystem holding the single mapped directory `/var/pkg` with one
entry. -/
def fsDirOnly : FSModel :=
  { pathExists := fun p => p == "/var/pkg"
    isFile := fun _ => false
    isDir := fun p => p == "/var/pkg"
    openOk := fun _ => true
    metaOk := fun _ => true
    content := fun _ => []
    dirEntries := fun p => if p == "/var/pkg" then some ["foo.pkg"] else none }

/-- C2 counterexample: `GET /pkgs` on a server mapping `pkgs` to the directory
`/var/pkg` is answered directly with a `200` HTML listing — no `301`/`308` and
no `Location` header is ever produced. -/
theorem handleRequest_dir_no_slash_counterexample :
    (handleRequest [("pkgs", "/var/pkg")] fsDirOnly 0 "/pkgs" none).status = 200 ∧
    (handleRequest [("pkgs", "/var/pkg")] fsDirOnly 0 "/pkgs" none).headers =
      [("Content-Type", "text/html")] := by
  constructor
  · rfl
  · rfl

theorem takeWhile_all {α : Type} (p : α → Bool) (l : List α)
    (h : ∀ a ∈ l, p a = true) : l.takeWhile p = l := by
  induction l with
  | nil => rfl
  | cons a as ih =>
    simp only [List.takeWhile_cons, h a (List.mem_cons_self a as), if_true]
    rw [ih fun x hx => h x (List.mem_cons_of_mem a hx)]

theorem dropWhile_all_true {α : Type} (p : α → Bool) (l : List α)
    (h : ∀ a ∈ l, p a = true) : l.dropWhile p = [] := by
  induction l with
  | nil => rfl
  | cons a as ih =>
    simp only [List.dropWhile_cons, h a (List.mem_cons_self a as), if_true]
    exact ih fun x hx => h x (List.mem_cons_of_mem a hx)

theorem dropWhile_all_false {α : Type} (p : α → Bool) (l : List α)
    (h : ∀ a ∈ l, p a = false) : l.dropWhile p = l := by
  cases l with
  | nil => rfl
  | cons a as =>
    simp only [List.dropWhile_cons, h a (List.mem_cons_self a as)]
    simp

theorem string_toList_eq_nil {s : String} (h : s.toList = []) : s = "" := by
  cases s with
  | mk data =>
    cases data with
    | nil => rfl
    | cons a l => simp [String.toList] at h

theorem string_mk_toList (s : String) : String.mk s.toList = s := by
  cases s
  rfl

/-! ### C2: no redirect is ever produced -/

theorem okHtmlResponse_no_location (s : String) :
    (okHtmlResponse s).status = 200 ∧
    ∀ v, ("Location", v) ∉ (okHtmlResponse s).headers := by
  refine ⟨rfl, fun v hv => ?_⟩
  simp [okHtmlResponse] at hv

theorem notFoundResponse_no_location :
    notFoundResponse.status = 404 ∧
    ∀ v, ("Location", v) ∉ notFoundResponse.headers := by
  refine ⟨rfl, fun v hv => ?_⟩
  simp [notFoundResponse] at hv

theorem fullFileResponse_no_location (c : Nat) (content : List Nat) :
    (fullFileResponse c content).status = 200 ∧
    ∀ v, ("Location", v) ∉ (fullFileResponse c content).headers := by
  refine ⟨rfl, fun v hv => ?_⟩
  simp [fullFileResponse] at hv

theorem serveFile_no_location {c : Nat} {content : List Nat} {o m : Bool}
    {rh : Option (List Char)} {r : HttpResponse}
    (h : serveFile c content o m rh = some r) :
    (r.status = 200 ∨ r.status = 206) ∧ ∀ v, ("Location", v) ∉ r.headers := by
  unfold serveFile at h
  split at h
  · split at h
    · dsimp only [] at h
      split at h
      · split at h
        · injection h with h2
          subst h2
          refine ⟨Or.inr rfl, fun v hv => ?_⟩
          simp at hv
        · injection h with h2
          subst h2
          exact ⟨Or.inl (fullFileResponse_no_location c content).1,
            (fullFileResponse_no_location c content).2⟩
      · injection h with h2
        subst h2
        exact ⟨Or.inl (fullFileResponse_no_location c content).1,
          (fullFileResponse_no_location c content).2⟩
    · exact absurd h (by simp)
  · exact absurd h (by simp)

theorem tryServePath_no_location {fs : FSModel} {c : Nat} {dir base sub : String}
    {rh : Option (List Char)} {r : HttpResponse}
    (h : tryServePath fs c dir base sub rh = some r) :
    (r.status = 200 ∨ r.status = 206) ∧ ∀ v, ("Location", v) ∉ r.headers := by
  unfold tryServePath at h
  split at h
  · split at h
    · exact serveFile_no_location h
    · split at h
      · split at h
        · injection h with h2
          subst h2
          exact ⟨Or.inl (okHtmlResponse_no_location _).1, (okHtmlResponse_no_location _).2⟩
        · exact absurd h (by simp)
      · exact absurd h (by simp)
  · exact absurd h (by simp)

/-- Every response `handle_request` produces has status 200, 206 or 404 and
carries no `Location` header. -/
theorem handleRequest_statuses (dirs : List (String × String)) (fs : FSModel)
    (c : Nat) (path : String) (rh : Option (List Char)) :
    ((handleRequest dirs fs c path rh).status = 200 ∨
     (handleRequest dirs fs c path rh).status = 206 ∨
     (handleRequest dirs fs c path rh).status = 404) ∧
    ∀ v, ("Location", v) ∉ (handleRequest dirs fs c path rh).headers := by
  unfold handleRequest
  split
  · exact ⟨Or.inl (okHtmlResponse_no_location _).1, (okHtmlResponse_no_location _).2⟩
  · split
    · split
      · rename_i htp
        have ht := tryServePath_no_location htp
        refine ⟨?_, fun v hv => ht.2 v hv⟩
        rcases ht.1 with h1 | h1
        · exact Or.inl h1
        · exact Or.inr (Or.inl h1)
      · exact ⟨Or.inr (Or.inr rfl),
          fun v hv => notFoundResponse_no_location.2 v hv⟩
    · exact ⟨Or.inr (Or.inr rfl),
        fun v hv => notFoundResponse_no_location.2 v hv⟩

/-- C2 amended: a GET for a mapped directory — or a subdirectory inside one —
without a trailing slash is answered directly with `200 OK` and the HTML
listing of that directory (whose links are absolute paths); and no response
the server ever produces is a `301`/`308` or carries a `Location` header. -/
theorem handleRequest_dir_no_slash :
    (∀ (dirs : List (String × String)) (fs : FSModel) (c : Nat)
        (base dir sub : String) (es : List String),
      base ≠ "" →
      (∀ ch ∈ base.toList, ch ≠ '/') →
      percentDecode ((if sub = "" then "/" ++ base
        else "/" ++ base ++ "/" ++ sub) : String).toList =
        ((if sub = "" then "/" ++ base else "/" ++ base ++ "/" ++ sub) : String).toList →
      assocLookup dirs base = some dir →
      fs.pathExists (joinPath dir sub) = true →
      fs.isFile (joinPath dir sub) = false →
      fs.isDir (joinPath dir sub) = true →
      fs.dirEntries (joinPath dir sub) = some es →
      handleRequest dirs fs c
          (if sub = "" then "/" ++ base else "/" ++ base ++ "/" ++ sub) none =
        okHtmlResponse (directoryListingHtml
          (if sub = "" then "/" ++ base else "/" ++ base ++ "/" ++ sub) es)) ∧
    (∀ (dirs : List (String × String)) (fs : FSModel) (c : Nat) (path : String)
        (rh : Option (List Char)),
      (handleRequest dirs fs c path rh).status ≠ 301 ∧
      (handleRequest dirs fs c path rh).status ≠ 308 ∧
      ∀ v, ("Location", v) ∉ (handleRequest dirs fs c path rh).headers) := by
  constructor
  · intro dirs fs c base dir sub es hb0 hb1 hdec hlook hex hnf hd hde
    rcases eq_or_ne sub "" with hsub | hsub
    · subst hsub
      rw [if_pos rfl] at hdec ⊢
      have hlist : ("/" ++ base).toList = '/' :: base.toList := by
        show ("/" ++ base).data = '/' :: base.data
        rw [String.data_append]
        rfl
      have hne1 : ¬("/" ++ base = "/" ∨ "/" ++ base = "") := by
        rintro (h | h)
        · apply hb0
          apply string_toList_eq_nil
          have h2 := congrArg String.toList h
          rw [hlist] at h2
          simp at h2
          exact h2
        · apply hb0
          apply string_toList_eq_nil
          have h2 := congrArg String.toList h
          rw [hlist] at h2
          simp at h2
      have e1 : (percentDecode ("/" ++ base).toList).dropWhile
          (fun ch => decide (ch = '/')) = base.toList := by
        rw [hdec, hlist, List.dropWhile_cons, if_pos (by decide)]
        exact dropWhile_all_false _ _ fun a ha => by simp [hb1 a ha]
      have e2 : base.toList.takeWhile (fun ch => decide (ch ≠ '/')) = base.toList :=
        takeWhile_all _ _ fun a ha => by simp [hb1 a ha]
      have e3 : base.toList.dropWhile (fun ch => decide (ch ≠ '/')) = [] :=
        dropWhile_all_true _ _ fun a ha => by simp [hb1 a ha]
      have ebase : String.mk (((percentDecode ("/" ++ base).toList).dropWhile
          (fun ch => decide (ch = '/'))).takeWhile (fun ch => decide (ch ≠ '/'))) =
          base := by
        rw [e1, e2, string_mk_toList]
      have esub : String.mk ((((percentDecode ("/" ++ base).toList).dropWhile
          (fun ch => decide (ch = '/'))).dropWhile
            (fun ch => decide (ch ≠ '/'))).drop 1) = "" := by
        rw [e1, e3]
        rfl
      have etry : tryServePath fs c dir base "" none =
          some (okHtmlResponse (directoryListingHtml ("/" ++ base) es)) := by
        unfold tryServePath
        rw [if_pos hex, if_neg (by simp [hnf]), if_pos hd, hde]
        rfl
      unfold handleRequest
      rw [if_neg hne1, ebase, esub, hlook]
      show (match tryServePath fs c dir base "" none with
        | some r => r
        | none => notFoundResponse) =
        okHtmlResponse (directoryListingHtml ("/" ++ base) es)
      rw [etry]
    · rw [if_neg hsub] at hdec ⊢
      have hlist : ("/" ++ base ++ "/" ++ sub).toList =
          '/' :: (base.toList ++ '/' :: sub.toList) := by
        show ("/" ++ base ++ "/" ++ sub).data = '/' :: (base.data ++ '/' :: sub.data)
        rw [String.data_append, String.data_append, String.data_append]
        show ((['/'] ++ base.data) ++ ['/']) ++ sub.data =
          '/' :: (base.data ++ '/' :: sub.data)
        simp
      have hne1 : ¬("/" ++ base ++ "/" ++ sub = "/" ∨ "/" ++ base ++ "/" ++ sub = "") := by
        rintro (h | h)
        · have h2 := congrArg String.toList h
          rw [hlist] at h2
          rw [show ("/" : String).toList = ['/'] from rfl] at h2
          have h3 : base.toList ++ '/' :: sub.toList = [] := by
            exact (List.cons.injEq .. ▸ h2 : _ ∧ _).2
          simp at h3
        · have h2 := congrArg String.toList h
          rw [hlist] at h2
          simp at h2
      have e1 : (percentDecode ("/" ++ base ++ "/" ++ sub).toList).dropWhile
          (fun ch => decide (ch = '/')) = base.toList ++ '/' :: sub.toList := by
        rw [hdec, hlist, List.dropWhile_cons, if_pos (by decide)]
        cases hbt : base.toList with
        | nil => exact absurd (string_toList_eq_nil hbt) hb0
        | cons b0 btail =>
          have hb0ne : b0 ≠ '/' := hb1 b0 (by rw [hbt]; exact List.mem_cons_self _ _)
          rw [List.cons_append, List.dropWhile_cons, if_neg (by simp [hb0ne])]
      have hba : ∀ x ∈ base.toList, (fun ch => decide (ch ≠ '/')) x = true :=
        fun x hx => by simp [hb1 x hx]
      have e2 : (base.toList ++ '/' :: sub.toList).takeWhile
          (fun ch => decide (ch ≠ '/')) = base.toList := by
        rw [takeWhile_append_all _ _ _ hba, List.takeWhile_cons, if_neg (by simp)]
        exact List.append_nil _
      have e3 : (base.toList ++ '/' :: sub.toList).dropWhile
          (fun ch => decide (ch ≠ '/')) = '/' :: sub.toList := by
        rw [dropWhile_append_all _ _ _ hba, List.dropWhile_cons, if_neg (by simp)]
      have ebase : String.mk (((percentDecode
          ("/" ++ base ++ "/" ++ sub).toList).dropWhile
          (fun ch => decide (ch = '/'))).takeWhile (fun ch => decide (ch ≠ '/'))) =
          base := by
        rw [e1, e2, string_mk_toList]
      have esub : String.mk ((((percentDecode
          ("/" ++ base ++ "/" ++ sub).toList).dropWhile
          (fun ch => decide (ch = '/'))).dropWhile
            (fun ch => decide (ch ≠ '/'))).drop 1) = sub := by
        rw [e1, e3]
        exact string_mk_toList sub
      have etry : tryServePath fs c dir base sub none =
          some (okHtmlResponse (directoryListingHtml ("/" ++ base ++ "/" ++ sub) es)) := by
        unfold tryServePath
        rw [if_pos hex, if_neg (by simp [hnf]), if_pos hd, hde, if_neg hsub]
      unfold handleRequest
      rw [if_neg hne1, ebase, esub, hlook]
      show (match tryServePath fs c dir base sub none with
        | some r => r
        | none => notFoundResponse) =
        okHtmlResponse (directoryListingHtml ("/" ++ base ++ "/" ++ sub) es)
      rw [etry]
  · intro dirs fs c path rh
    obtain ⟨hs, hl⟩ := handleRequest_statuses dirs fs c path rh
    refine ⟨?_, ?_, hl⟩
    · rcases hs with h | h | h <;> omega
    · rcases hs with h | h | h <;> omega

/-- A filesystem holding the mapped subdirectory `/var/pkg/sub` with one
entry. -/
def fsSubDir : FSModel :=
  { pathExists := fun p => p == "/var/pkg/sub"
    isFile := fun _ => false
    isDir := fun p => p == "/var/pkg/sub"
    openOk := fun _ => true
    metaOk := fun _ => true
    content := fun _ => []
    dirEntries := fun p => if p == "/var/pkg/sub" then some ["x.pkg"] else none }

/-- C2 amended witness: `GET /pkgs` (empty subpath) and `GET /pkgs/sub` (a
subdirectory) both answered with the `200` listing, and a no-redirect
instance. -/
theorem handleRequest_dir_no_slash_witness :
    (("pkgs" : String) ≠ "" ∧ (∀ ch ∈ ("pkgs" : String).toList, ch ≠ '/') ∧
      percentDecode ("/" ++ "pkgs").toList = ("/" ++ "pkgs").toList ∧
      assocLookup [("pkgs", "/var/pkg")] "pkgs" = some "/var/pkg" ∧
      fsDirOnly.pathExists (joinPath "/var/pkg" "") = true ∧
      fsDirOnly.isFile (joinPath "/var/pkg" "") = false ∧
      fsDirOnly.isDir (joinPath "/var/pkg" "") = true ∧
      fsDirOnly.dirEntries (joinPath "/var/pkg" "") = some ["foo.pkg"] ∧
      handleRequest [("pkgs", "/var/pkg")] fsDirOnly 0 ("/" ++ "pkgs") none =
        okHtmlResponse (directoryListingHtml ("/" ++ "pkgs") ["foo.pkg"])) ∧
    (percentDecode ("/" ++ "pkgs" ++ "/" ++ "sub").toList =
        ("/" ++ "pkgs" ++ "/" ++ "sub").toList ∧
      fsSubDir.pathExists (joinPath "/var/pkg" "sub") = true ∧
      fsSubDir.isFile (joinPath "/var/pkg" "sub") = false ∧
      fsSubDir.isDir (joinPath "/var/pkg" "sub") = true ∧
      fsSubDir.dirEntries (joinPath "/var/pkg" "sub") = some ["x.pkg"] ∧
      handleRequest [("pkgs", "/var/pkg")] fsSubDir 0
          ("/" ++ "pkgs" ++ "/" ++ "sub") none =
        okHtmlResponse (directoryListingHtml ("/" ++ "pkgs" ++ "/" ++ "sub")
          ["x.pkg"])) ∧
    ((handleRequest [("pkgs", "/var/pkg")] fsDirOnly 0 "/nope" none).status ≠ 301 ∧
      (handleRequest [("pkgs", "/var/pkg")] fsDirOnly 0 "/nope" none).status ≠ 308 ∧
      ∀ v, ("Location", v) ∉
        (handleRequest [("pkgs", "/var/pkg")] fsDirOnly 0 "/nope" none).headers) := by
  refine ⟨⟨by decide, by decide, by decide, by decide, by decide, by decide, by decide,
    by decide, ?_⟩, ⟨by decide, by decide, by decide, by decide, by decide, ?_⟩, ?_⟩
  · exact handleRequest_dir_no_slash.1 [("pkgs", "/var/pkg")] fsDirOnly 0 "pkgs"
      "/var/pkg" "" ["foo.pkg"] (by decide) (by decide) (by decide) (by decide)
      (by decide) (by decide) (by decide) (by decide)
  · exact handleRequest_dir_no_slash.1 [("pkgs", "/var/pkg")] fsSubDir 0 "pkgs"
      "/var/pkg" "sub" ["x.pkg"] (by decide) (by decide) (by decide) (by decide)
      (by decide) (by decide) (by decide) (by decide)
  · exact handleRequest_dir_no_slash.2 [("pkgs", "/var/pkg")] fsDirOnly 0 "/nope" none

/-- A filesystem where `/var/pkg/foo.pkg` exists as a file but cannot be
opened, and `/var/pkg/bad` exists as a directory but cannot be read. -/
def fsFailing : FSModel :=
  { pathExists := fun p => p == "/var/pkg/foo.pkg" || p == "/var/pkg/bad"
    isFile := fun p => p == "/var/pkg/foo.pkg"
    isDir := fun p => p == "/var/pkg/bad"
    openOk := fun _ => false
    metaOk := fun _ => true
    content := fun _ => [1, 2, 3]
    dirEntries := fun _ => none }

/-- C3: when the resolved path exists but the file cannot be opened (or the
directory cannot be read), `serve_file`/`serve_directory` return `None` and
`handle_request` falls through to the `404` response — no `500` response is
ever constructed, although the code logs "500 Internal Server Error". -/
theorem handleRequest_fs_error_gives_404 :
    handleRequest [("pkgs", "/var/pkg")] fsFailing 0 "/pkgs/foo.pkg" none =
      notFoundResponse ∧
    handleRequest [("pkgs", "/var/pkg")] fsFailing 0 "/pkgs/bad" none =
      notFoundResponse ∧
    notFoundResponse.status = 404 := by
  refine ⟨by decide, by decide, by rfl⟩

/-- A filesystem where the only file is `/var/pkg/../secret.txt`, i.e. a path
that escapes the mapped directory `/var/pkg`. -/
def fsOutside : FSModel :=
  { pathExists := fun p => p == "/var/pkg/../secret.txt"
    isFile := fun p => p == "/var/pkg/../secret.txt"
    isDir := fun _ => false
    openOk := fun _ => true
    metaOk := fun _ => true
    content := fun p => if p == "/var/pkg/../secret.txt" then [42, 43] else []
    dirEntries := fun _ => none }

/-- C10: the resolver joins the once-percent-decoded subpath verbatim, so a
request whose subpath carries (percent-encoded) `..` segments resolves to a
path outside the mapped directory and is served with `200` if that outside
file exists. -/
theorem handleRequest_path_traversal :
    handleRequest [("pkgs", "/var/pkg")] fsOutside 0 "/pkgs/%2e%2e/secret.txt" none =
      fullFileResponse 0 [42, 43] ∧
    (fullFileResponse 0 [42, 43]).status = 200 ∧
    (fullFileResponse 0 [42, 43]).bodyChunks.flatten = [42, 43] ∧
    joinPath "/var/pkg" "../secret.txt" = "/var/pkg/../secret.txt" ∧
    (normSegs (pathSegs "/var/pkg".toList)).isPrefixOf
      (normSegs (pathSegs "/var/pkg/../secret.txt".toList)) = false := by
  refine ⟨by decide, by rfl, by rfl, by decide, by decide⟩

end Fpkgi
